import Mathlib

/-!
# pomlight: the button-driven timer state machine of `main.go`

The development embeds the `Fsm` of `main.go` as explicit state passing.

* The main goroutine is blocked at one of two `select` statements: the one of
  `main` (lines 169-181) or the one of `stTimer` (lines 97-109).  The field
  `World.inTimer` says which.  Every call of `stTimer` in the source is a tail
  call, so when the wait inside `stTimer` finally returns a state function it
  is `main` that stores it in `fsm.State` (line 179).
* Every `context.WithCancel` yields a fresh context, named by a number; the
  cancel function of a context is named by the same number.
* Commands started and cancel functions invoked are appended to a trace.
* The goroutine of lines 70-76 is kept in `running` until `cmd.Run()` returns
  and in `sending` while it is blocked in `fsm.done <- true` (the channel is
  unbuffered).
* What the environment decides is an input of a step: the event read from the
  inbox, the clock reading, whether `Start()` succeeds, when and how
  `cmd.Run()` returns, which ready case a `select` takes.
-/

namespace Pomlight

/-- Modelled from the spec: the event record of the evdev package, whose
declaration is outside src.  It carries the three fields `main.go` reads: the
event class (`Type` in the source), the key code and the value (1 for a press,
0 for a release). -/
structure Event where
  EvType : Nat
  Code : Nat
  Value : Int
deriving DecidableEq, Repr

/-- The three command flags of lines 19-21. -/
inductive Command where
  | pauseCommand
  | beginCommand
  | endCommand
deriving DecidableEq, Repr

/-- An observable action of the state machine: `exec c args k` is
`exec.CommandContext(ctx_k, *c, args...)` being run or started, `cancel k` is
the cancel function of context `k` being invoked. -/
inductive Effect where
  | exec (cmd : Command) (args : List String) (ctx : Nat)
  | cancel (ctx : Nat)
deriving DecidableEq, Repr

/-- The methods of `Fsm` of type `fn` (line 23). -/
inductive Fn where
  | stInit
  | stStart
  | stEnd
  | stTimer
  | stPause
deriving DecidableEq, Repr

/-- What `main.go` takes from outside the repository and the model does not
interpret: the constant `evdev.EvKeys`, and `float64` with its zero value, its
addition, `Duration.Seconds` and `strconv.FormatFloat(x, 'f', -1, 64)`. -/
structure Lib (F : Type) where
  EvKeys : Nat
  zero : F
  add : F → F → F
  seconds : Int → F
  format : F → String

/-- The struct `Fsm` of lines 25-36.  Contexts and cancel functions are named
by the number of the context; instants are nanoseconds on the clock.  The two
channels `done` and `Input` live in `World`. -/
structure Fsm (F : Type) where
  ctx : Option Nat
  lastev : Option Event
  pause : Bool
  State : Fn
  elapsedString : String
  elapsed : F
  cancel : Option Nat
  StartTime : Int
deriving DecidableEq, Repr

/-- The program state: the `Fsm`, where the main goroutine is blocked, the
contexts created so far, the trace of effects, and the goroutines spawned by
`stStart`: `running` while `cmd.Run()` has not returned, `sending` while
blocked in `fsm.done <- true`, `received` once the wait has taken the value. -/
structure World (F : Type) where
  fsm : Fsm F
  inTimer : Bool
  nextCtx : Nat
  trace : List Effect
  running : List Nat
  sending : List Nat
  received : List Nat
deriving DecidableEq, Repr

/-- A run-time failure of a step: a nil dereference (a panic in Go), or an
input that the program cannot take where it stands. -/
inductive Fault where
  | nilDeref
  | notEnabled
deriving DecidableEq, Repr

/-- How a call of a state function ends: it returns a state function to
`main`, or the goroutine blocks in the `select` of `stTimer`. -/
inductive Next where
  | ret (f : Fn)
  | wait
deriving DecidableEq, Repr

/-- The case of the `select` of `stTimer` that is taken: an event from
`fsm.Input`, a value from `fsm.done` (with the outcome of the `Start()` that
`stEnd` then calls), or the timeout. -/
inductive Ready where
  | input (ev : Event)
  | done (startOk : Bool)
  | after
deriving DecidableEq, Repr

/-- What the environment feeds the program.
* `inbox ev now startOk`: `ev` is read from the inbox; `now` is the clock
  reading and `startOk` the outcome of `Start()` should the step need them.
* `done k startOk`: the wait receives from `fsm.done` the value sent by the
  goroutine of context `k`.
* `tick`: the five-second timeout of the wait fires.
* `runReturns k err`: `cmd.Run()` returns in the goroutine of context `k`,
  with an error or without. -/
inductive Input where
  | inbox (ev : Event) (now : Int) (startOk : Bool)
  | done (k : Nat) (startOk : Bool)
  | tick
  | runReturns (k : Nat) (err : Bool)
deriving DecidableEq, Repr

deriving instance DecidableEq for Except

variable {F : Type}

/-- The largest `time.Duration`. -/
def maxDuration : Int := 2 ^ 63 - 1

/-- The smallest `time.Duration`. -/
def minDuration : Int := -(2 ^ 63)

/-- The duration `time.Since(start)` at clock reading `now`: the difference in
nanoseconds, saturating at the bounds of `time.Duration`. -/
def Since (now start : Int) : Int :=
  max minDuration (min maxDuration (now - start))

/-- `NewFsm` (lines 38-43): every field has its zero value but `State`. -/
def NewFsm (L : Lib F) : Fsm F :=
  { ctx := none, lastev := none, pause := false, State := Fn.stInit,
    elapsedString := "", elapsed := L.zero, cancel := none, StartTime := 0 }

/-- The program as `main` has it at line 167, before the first event. -/
def initWorld (L : Lib F) : World F :=
  { fsm := NewFsm L, inTimer := false, nextCtx := 0, trace := [],
    running := [], sending := [], received := [] }

/-- Invoking the cancel function of context `k`. -/
def invokeCancel (w : World F) (k : Nat) : World F :=
  { w with trace := w.trace ++ [Effect.cancel k] }

/-- `exec.CommandContext(ctx, *c, args...)` on a fresh context
(`context.WithCancel(context.Background())`): returns the context. -/
def execFresh (w : World F) (c : Command) (args : List String) : Nat × World F :=
  (w.nextCtx,
   { w with nextCtx := w.nextCtx + 1,
            trace := w.trace ++ [Effect.exec c args w.nextCtx] })

/-- `stInit` (lines 45-60). -/
def stInit (w : World F) (ev : Option Event) : Except Fault (Next × World F) :=
  match ev with
  | none => .ok (Next.ret Fn.stInit, w)
  | some e =>
    if e.Value = 1 then
      let w1 := { w with fsm := { w.fsm with lastev := some e, elapsedString := "0" } }
      let w2 := match w1.fsm.cancel with
        | some k => invokeCancel w1 k
        | none => w1
      .ok (Next.ret Fn.stStart, w2)
    else
      .ok (Next.ret Fn.stInit, w)

/-- `stTimer` (lines 96-111) up to its `select`: the goroutine blocks there.
The cases of the `select` are in `stTimerSelect`. -/
def stTimer (w : World F) (_ign : Option Event) : Except Fault (Next × World F) :=
  .ok (Next.wait, w)

/-- `stStart` (lines 62-83).  `ev.Value` dereferences `ev`, and
`fsm.lastev.Code` dereferences `fsm.lastev` when the left conjunct holds. -/
def stStart (w : World F) (ev : Option Event) (now : Int) :
    Except Fault (Next × World F) :=
  match ev with
  | none => .error Fault.nilDeref
  | some e =>
    if e.Value = 0 then
      match w.fsm.lastev with
      | none => .error Fault.nilDeref
      | some l =>
        if e.Code = l.Code then
          let (k, w1) := execFresh w Command.beginCommand [w.fsm.elapsedString]
          let w2 := { w1 with running := w1.running ++ [k] }
          let w3 := { w2 with fsm := { w2.fsm with StartTime := now, ctx := some k,
                                                   cancel := some k } }
          stTimer w3 none
        else
          .ok (Next.ret Fn.stStart, w)
    else
      .ok (Next.ret Fn.stStart, w)

/-- `stEnd` (lines 85-94). -/
def stEnd (w : World F) (ev : Option Event) (startOk : Bool) :
    Except Fault (Next × World F) :=
  let (k, w1) := execFresh w Command.endCommand [w.fsm.elapsedString]
  if startOk then
    stInit { w1 with fsm := { w1.fsm with cancel := some k } } ev
  else
    .ok (Next.ret Fn.stInit, w1)

/-- The `select` of `stTimer` (lines 97-110) once a case is ready: a received
event that is a press is recorded and `stPause` is returned; a completion runs
`stEnd(nil)`; after anything else the function calls itself (line 110), which
blocks in the `select` again. -/
def stTimerSelect (w : World F) : Ready → Except Fault (Next × World F)
  | Ready.input ev =>
    if ev.Value = 1 then
      .ok (Next.ret Fn.stPause, { w with fsm := { w.fsm with lastev := some ev } })
    else
      stTimer w none
  | Ready.done startOk => stEnd w none startOk
  | Ready.after => stTimer w none

/-- `stPause` (lines 113-137). -/
def stPause (L : Lib F) (w : World F) (ev : Option Event) (now : Int)
    (startOk : Bool) : Except Fault (Next × World F) :=
  let w1 := { w with fsm := { w.fsm with pause := !w.fsm.pause } }
  if w1.fsm.pause then
    match w1.fsm.cancel with
    | none => .error Fault.nilDeref
    | some c =>
      let w2 := invokeCancel w1 c
      let (k, w3) := execFresh w2 Command.pauseCommand []
      if startOk then
        let elapsed := Since now w3.fsm.StartTime
        let w4 := { w3 with fsm := { w3.fsm with
                      elapsed := L.add w3.fsm.elapsed (L.seconds elapsed),
                      elapsedString := L.format (L.seconds elapsed),
                      cancel := some k, ctx := some k } }
        stTimer w4 none
      else
        .ok (Next.ret Fn.stInit, w3)
  else
    match w1.fsm.cancel with
    | none => .error Fault.nilDeref
    | some c => stStart (invokeCancel w1 c) ev now

/-- The call `fsm.State(&evt)` of line 178. -/
def callState (L : Lib F) (w : World F) (ev : Option Event) (now : Int)
    (startOk : Bool) : Except Fault (Next × World F) :=
  match w.fsm.State with
  | Fn.stInit => stInit w ev
  | Fn.stStart => stStart w ev now
  | Fn.stEnd => stEnd w ev startOk
  | Fn.stTimer => stTimer w ev
  | Fn.stPause => stPause L w ev now startOk

/-- Where a call chain started by `main` ends: a returned state function is
stored in `fsm.State` (line 179) and `main` loops; otherwise the goroutine
stays blocked in the wait of `stTimer`. -/
def settle (r : Except Fault (Next × World F)) : Except Fault (World F) :=
  match r with
  | .error e => .error e
  | .ok (Next.ret f, w) => .ok { w with fsm := { w.fsm with State := f }, inTimer := false }
  | .ok (Next.wait, w) => .ok { w with inTimer := true }

/-- The case `evt := <-dev.Inbox` of the `select` of `main` (lines 173-179). -/
def mainCase (L : Lib F) (w : World F) (evt : Event) (now : Int)
    (startOk : Bool) : Except Fault (World F) :=
  if evt.EvType ≠ L.EvKeys then
    .ok w
  else
    settle (callState L w (some evt) now startOk)

/-- One step of the program on one input of the environment. -/
def step (L : Lib F) (w : World F) : Input → Except Fault (World F)
  | Input.inbox ev now startOk =>
    if w.inTimer then settle (stTimerSelect w (Ready.input ev))
    else mainCase L w ev now startOk
  | Input.done k startOk =>
    if w.inTimer ∧ k ∈ w.sending then
      settle (stTimerSelect { w with sending := w.sending.erase k,
                                     received := w.received ++ [k] } (Ready.done startOk))
    else .error Fault.notEnabled
  | Input.tick =>
    if w.inTimer then settle (stTimerSelect w Ready.after) else .error Fault.notEnabled
  | Input.runReturns k err =>
    if k ∈ w.running then
      .ok { w with running := w.running.erase k,
                   sending := if err then w.sending else w.sending ++ [k] }
    else .error Fault.notEnabled

/-- The program fed a sequence of inputs. -/
def run (L : Lib F) (w : World F) : List Input → Except Fault (World F)
  | [] => .ok w
  | i :: is =>
    match step L w i with
    | .ok w1 => run L w1 is
    | .error e => .error e

/-- The commands launched in a trace, oldest first, with their arguments. -/
def launched : List Effect → List (Command × List String)
  | [] => []
  | Effect.exec c args _ :: t => (c, args) :: launched t
  | Effect.cancel _ :: t => launched t

/-- The contexts whose cancel function is invoked in a trace, oldest first. -/
def cancelled : List Effect → List Nat
  | [] => []
  | Effect.exec _ _ _ :: t => cancelled t
  | Effect.cancel k :: t => k :: cancelled t

/-- What `stInit` invokes on a press: the stored cancel function, if any
(lines 54-56). -/
def leftover (w : World F) : List Effect :=
  match w.fsm.cancel with
  | some k => [Effect.cancel k]
  | none => []

/-- A library instance for concrete runs: seconds are kept exactly, as a count
of nanoseconds, and printed as a decimal without trailing zeros. -/
def exactLib : Lib Int :=
  { EvKeys := 1
    zero := 0
    add := fun a b => a + b
    seconds := fun d => d
    format := fun x =>
      let a := x.natAbs
      let frac := ((Nat.toDigits 10 (1000000000 + a % 1000000000)).drop 1).reverse.dropWhile
        (fun c => c == '0')
      (if x < 0 then "-" else "") ++ toString (a / 1000000000) ++
        (if frac.isEmpty then "" else "." ++ String.mk frac.reverse) }

/-- A press of key `k`, as a key event of `exactLib`. -/
def press (k : Nat) : Event := { EvType := 1, Code := k, Value := 1 }

/-- A release of key `k`, as a key event of `exactLib`. -/
def release (k : Nat) : Event := { EvType := 1, Code := k, Value := 0 }

/-- An input that `main` dispatches to the state machine: an inbox event of the
key class. -/
def keyEvent (L : Lib F) : Input → Bool
  | Input.inbox ev _ _ => decide (ev.EvType = L.EvKeys)
  | _ => false

/-- An inbox event other than a release (value 0) of key `K`. -/
def otherThanRelease (K : Nat) : Input → Bool
  | Input.inbox ev _ _ => !(decide (ev.Value = 0) && decide (ev.Code = K))
  | _ => false

/-- An input that is no press and no completion: the timeout of the wait, or an
inbox event whose value is not 1. -/
def quiet : Input → Bool
  | Input.tick => true
  | Input.inbox ev _ _ => decide (ev.Value ≠ 1)
  | _ => false

/-- What keeps the unguarded dereferences of `stStart` and `stPause` safe:
`fsm.State` is one of the three functions that are ever returned to `main`;
when `main` is about to call `stStart` the field `lastev` is set; when it is
about to call `stPause` both `lastev` and the cancel handle are set; and during
the wait of `stTimer` the cancel handle is set. -/
def Safe (w : World F) : Prop :=
  (w.fsm.State = Fn.stInit ∨ w.fsm.State = Fn.stStart ∨ w.fsm.State = Fn.stPause) ∧
  (w.inTimer = false → w.fsm.State = Fn.stStart → w.fsm.lastev ≠ none) ∧
  (w.inTimer = false → w.fsm.State = Fn.stPause →
    w.fsm.lastev ≠ none ∧ w.fsm.cancel ≠ none) ∧
  (w.inTimer = true → w.fsm.cancel ≠ none)

instance instDecidableSafe (w : World F) : Decidable (Safe w) := by
  unfold Safe
  infer_instance

/-- A step that spawns and ends no goroutine: the three lists of goroutines are
as before and no context is forgotten. -/
def SameIds (w w1 : World F) : Prop :=
  w.nextCtx ≤ w1.nextCtx ∧ w1.running = w.running ∧ w1.sending = w.sending ∧
    w1.received = w.received

/-- A step that spawns the goroutine of a fresh context (lines 66-76). -/
def Launches (w w1 : World F) : Prop :=
  w.nextCtx < w1.nextCtx ∧ w1.running = w.running ++ [w.nextCtx] ∧
    w1.sending = w.sending ∧ w1.received = w.received

/-- What one step does to the goroutines: nothing, or one is spawned, or the
`cmd.Run()` of one returns (it sends its completion or ends), or the completion
of one is received. -/
def IdStep (w w1 : World F) : Prop :=
  SameIds w w1 ∨ Launches w w1 ∨
  (∃ k, k ∈ w.running ∧ w1.nextCtx = w.nextCtx ∧ w1.running = w.running.erase k ∧
    (w1.sending = w.sending ∨ w1.sending = w.sending ++ [k]) ∧
    w1.received = w.received) ∨
  (∃ k, k ∈ w.sending ∧ w.nextCtx ≤ w1.nextCtx ∧ w1.running = w.running ∧
    w1.sending = w.sending.erase k ∧ w1.received = w.received ++ [k])

/-- Every goroutine is in one list only, once, and is named by a context that
has been created. -/
def IdsOk (w : World F) : Prop :=
  ∀ k, w.running.count k + w.sending.count k + w.received.count k ≤ 1 ∧
    (0 < w.running.count k + w.sending.count k + w.received.count k → k < w.nextCtx)

/-- The step opens a cycle: `main` dispatches a press to `stInit`. -/
def opensCycle (L : Lib F) (w : World F) : Input → Bool
  | Input.inbox ev _ _ =>
    decide (w.inTimer = false ∧ ev.EvType = L.EvKeys ∧ w.fsm.State = Fn.stInit ∧
      ev.Value = 1)
  | _ => false

/-- The step is a pause-on: `main` dispatches a key event to `stPause` with the
pause flag false and a handle stored, and the pause command starts.  The value
is the duration of the segment that the pause ends, `now - StartTime`. -/
def pauseOn (L : Lib F) (w : World F) : Input → Option Int
  | Input.inbox ev now startOk =>
    if w.inTimer = false ∧ ev.EvType = L.EvKeys ∧ w.fsm.State = Fn.stPause ∧
        w.fsm.pause = false ∧ w.fsm.cancel ≠ none ∧ startOk = true then
      some (Since now w.fsm.StartTime)
    else none
  | _ => none

/-- The text of a cycle after one more input, in the words of the claim on the
arguments of end and begin: "0" when the input opens a cycle, the formatted
seconds of the segment when it is a pause-on, the text `t` as it was
otherwise. -/
def nextText (L : Lib F) (w : World F) (t : String) (i : Input) : String :=
  if opensCycle L w i then "0"
  else
    match pauseOn L w i with
    | some d => L.format (L.seconds d)
    | none => t

/-- The text of a cycle after a sequence of inputs fed to the program in state
`w`: "0" if no pause-on came after the opening of the cycle, and otherwise the
formatted seconds of the single segment ended by the most recent pause-on. -/
def segmentText (L : Lib F) (w : World F) (t : String) : List Input → String
  | [] => t
  | i :: is =>
    match step L w i with
    | .ok w1 => segmentText L w1 (nextText L w t i) is
    | .error _ => t

/-- The effects that a step from `w` to `w1` appended to the trace. -/
def newEffects (w w1 : World F) : List Effect :=
  w1.trace.drop w.trace.length

theorem launched_append (s t : List Effect) :
    launched (s ++ t) = launched s ++ launched t := by
  induction s with
  | nil => rfl
  | cons e s ih => cases e <;> simp [launched, ih]

theorem cancelled_append (s t : List Effect) :
    cancelled (s ++ t) = cancelled s ++ cancelled t := by
  induction s with
  | nil => rfl
  | cons e s ih => cases e <;> simp [launched, cancelled, ih]

/-- C1: from Idle (the goroutine in the select of main, State = stInit), a
dispatched press of key K followed by the dispatched release of K runs without
fault; the trace grows by the leftover cancel (if a handle was stored) and by
exactly one command, begin with the single argument "0"; the goroutine is then
blocked in the wait of stTimer, StartTime is the clock reading of the launch
and the cancel handle of the new context is stored. -/
theorem press_release_from_idle_launches_begin (L : Lib F) (w : World F)
    (p r : Event) (n1 n2 : Int) (o1 o2 : Bool)
    (hmain : w.inTimer = false) (hidle : w.fsm.State = Fn.stInit)
    (hp : p.EvType = L.EvKeys) (hpv : p.Value = 1)
    (hr : r.EvType = L.EvKeys) (hrv : r.Value = 0) (hcode : r.Code = p.Code) :
    ∃ w2, run L w [Input.inbox p n1 o1, Input.inbox r n2 o2] = .ok w2 ∧
      w2.trace = w.trace ++ leftover w ++
        [Effect.exec Command.beginCommand ["0"] w.nextCtx] ∧
      launched w2.trace = launched w.trace ++ [(Command.beginCommand, ["0"])] ∧
      w2.inTimer = true ∧
      w2.fsm.StartTime = n2 ∧
      w2.fsm.cancel = some w.nextCtx ∧
      w2.fsm.ctx = some w.nextCtx ∧
      w2.running = w.running ++ [w.nextCtx] := by
  cases hc : w.fsm.cancel <;>
    simp [run, step, mainCase, callState, settle, stInit, stStart, stTimer, execFresh,
      invokeCancel, leftover, launched_append, launched, hmain, hidle, hp, hpv, hr, hrv,
      hcode, hc]

/-- Witness of C1: an idle machine that still stores a handle, key 30. -/
theorem press_release_from_idle_launches_begin_witness :
    ∃ w2, run exactLib
        { initWorld exactLib with
          fsm := { NewFsm exactLib with cancel := some 4 }, nextCtx := 5 }
        [Input.inbox (press 30) 7 true, Input.inbox (release 30) 9 true] = .ok w2 ∧
      w2.trace = [Effect.cancel 4, Effect.exec Command.beginCommand ["0"] 5] ∧
      w2.inTimer = true ∧ w2.fsm.StartTime = 9 ∧ w2.fsm.cancel = some 5 := by
  obtain ⟨w2, h, ht, _, hi, hs, hc, _, _⟩ :=
    press_release_from_idle_launches_begin exactLib
      { initWorld exactLib with
        fsm := { NewFsm exactLib with cancel := some 4 }, nextCtx := 5 }
      (press 30) (release 30) 7 9 true true rfl rfl rfl rfl rfl rfl rfl
  exact ⟨w2, h, by simpa [leftover, initWorld, NewFsm] using ht, hi, hs, hc⟩

theorem settle_ret_same (w : World F) (f : Fn) (hmain : w.inTimer = false)
    (hs : w.fsm.State = f) : settle (.ok (Next.ret f, w)) = .ok w := by
  obtain ⟨fsm, inTimer, nextCtx, trace, running, sending, received⟩ := w
  obtain ⟨ctx, lastev, pause, State, elapsedString, elapsed, cancel, StartTime⟩ := fsm
  simp only at hmain hs
  subst hmain hs
  rfl

theorem run_append_ok (L : Lib F) (w w1 : World F) (a b : List Input)
    (h : run L w a = .ok w1) : run L w (a ++ b) = run L w1 b := by
  induction a generalizing w with
  | nil =>
    simp only [run, Except.ok.injEq] at h
    subst h
    rfl
  | cons i a ih =>
    simp only [run, List.cons_append] at h ⊢
    cases hstep : step L w i with
    | error e => simp [hstep] at h
    | ok w0 =>
      simp only [hstep] at h ⊢
      exact ih w0 h

theorem run_cons_ok (L : Lib F) (w w1 : World F) (i : Input) (is : List Input)
    (h : step L w i = .ok w1) : run L w (i :: is) = run L w1 is := by
  simp only [run, h]

theorem run_single (L : Lib F) (w : World F) (i : Input) :
    run L w [i] = step L w i := by
  simp only [run]
  cases step L w i <;> rfl

/-- When `cmd.Run()` returns an error the goroutine only logs it. -/
theorem step_runReturns_err (L : Lib F) (w : World F) (k : Nat) (hk : k ∈ w.running) :
    step L w (Input.runReturns k true) = .ok { w with running := w.running.erase k } := by
  simp [step, hk]

/-- In AwaitingRelease an inbox event that is not the release of the recorded
key changes nothing. -/
theorem step_awaiting_other (L : Lib F) (w : World F) (l : Event) (i : Input)
    (hmain : w.inTimer = false) (hs : w.fsm.State = Fn.stStart)
    (hl : w.fsm.lastev = some l) (hi : otherThanRelease l.Code i = true) :
    step L w i = .ok w := by
  cases i with
  | inbox ev now ok =>
    simp only [otherThanRelease, Bool.not_eq_true', Bool.and_eq_false_imp,
      decide_eq_true_eq, decide_eq_false_iff_not] at hi
    simp only [step, hmain, Bool.false_eq_true, if_false, mainCase]
    by_cases hty : ev.EvType = L.EvKeys
    · simp only [hty, ne_eq, not_true_eq_false, if_false, callState, hs, stStart, hl]
      by_cases hv : ev.Value = 0
      · simp only [hv, if_true, hi hv, if_false]
        exact settle_ret_same w _ hmain hs
      · simp only [hv, if_false]
        exact settle_ret_same w _ hmain hs
    · simp [hty]
  | done k ok => simp [otherThanRelease] at hi
  | tick => simp [otherThanRelease] at hi
  | runReturns k err => simp [otherThanRelease] at hi

theorem run_awaiting_other (L : Lib F) (w : World F) (l : Event) (ins : List Input)
    (hmain : w.inTimer = false) (hs : w.fsm.State = Fn.stStart)
    (hl : w.fsm.lastev = some l)
    (hins : ∀ i ∈ ins, otherThanRelease l.Code i = true) :
    run L w ins = .ok w := by
  induction ins with
  | nil => rfl
  | cons i ins ih =>
    have h1 := step_awaiting_other L w l i hmain hs hl (hins i (List.mem_cons_self _ _))
    simp only [run, h1]
    exact ih (fun j hj => hins j (List.mem_cons_of_mem _ hj))

/-- C2: after a press of key K accepted in Idle, every finite sequence of
inbox events none of which is a release (value 0) of K leaves the machine in
AwaitingRelease (State = stStart, the goroutine in the select of main): the
whole program state is the one the press left, so no command is launched and
lastev, elapsedString, elapsed, pause and the cancel handle are unchanged. -/
theorem awaiting_release_ignores_other_events (L : Lib F) (w : World F)
    (p : Event) (n : Int) (o : Bool) (ins : List Input)
    (hmain : w.inTimer = false) (hidle : w.fsm.State = Fn.stInit)
    (hp : p.EvType = L.EvKeys) (hpv : p.Value = 1)
    (hins : ∀ i ∈ ins, keyEvent L i = true ∧ otherThanRelease p.Code i = true) :
    ∃ w1 w2, step L w (Input.inbox p n o) = .ok w1 ∧ run L w1 ins = .ok w2 ∧
      w2.fsm.State = Fn.stStart ∧ w2.inTimer = false ∧
      launched w2.trace = launched w.trace ∧
      w2.trace = w1.trace ∧
      w2.fsm.lastev = some p ∧
      w2.fsm.elapsedString = w1.fsm.elapsedString ∧
      w2.fsm.elapsed = w1.fsm.elapsed ∧
      w2.fsm.pause = w1.fsm.pause ∧
      w2.fsm.cancel = w1.fsm.cancel ∧
      w2 = w1 := by
  have hstep : ∃ w1, step L w (Input.inbox p n o) = .ok w1 ∧
      w1.fsm.State = Fn.stStart ∧ w1.inTimer = false ∧ w1.fsm.lastev = some p ∧
      launched w1.trace = launched w.trace := by
    cases hc : w.fsm.cancel <;>
      simp [step, mainCase, callState, settle, stInit, invokeCancel, launched_append,
        launched, hmain, hidle, hp, hpv, hc]
  obtain ⟨w1, h1, hs1, hm1, hl1, hla1⟩ := hstep
  have hrun := run_awaiting_other L w1 p ins hm1 hs1 hl1 (fun i hi => (hins i hi).2)
  exact ⟨w1, w1, h1, hrun, hs1, hm1, hla1, rfl, hl1, rfl, rfl, rfl, rfl, rfl⟩

/-- Witness of C2: key 30 pressed on a fresh machine, then a press of key 5, a
release of key 5 and a second press of key 30. -/
theorem awaiting_release_ignores_other_events_witness :
    ∃ w1 w2, step exactLib (initWorld exactLib) (Input.inbox (press 30) 0 true) = .ok w1 ∧
      run exactLib w1 [Input.inbox (press 5) 1 true, Input.inbox (release 5) 2 true,
        Input.inbox (press 30) 3 true] = .ok w2 ∧
      w2.fsm.State = Fn.stStart ∧ w2.trace = w1.trace ∧ w2 = w1 := by
  obtain ⟨w1, w2, h1, h2, hs, _, _, ht, _, _, _, _, _, he⟩ :=
    awaiting_release_ignores_other_events exactLib (initWorld exactLib) (press 30) 0 true
      [Input.inbox (press 5) 1 true, Input.inbox (release 5) 2 true,
        Input.inbox (press 30) 3 true] rfl rfl rfl rfl (by decide)
  exact ⟨w1, w2, h1, h2, hs, ht, he⟩

/-- C3 fails as stated: a press and release of key 30 on a fresh machine, the
begin command returning cleanly and its completion received with the end
command starting.  The machine is Idle again, and `fsm.cancel` is context 1,
the handle of the end command that was just started; the handle of the begin
command (context 0) was overwritten without being invoked. -/
theorem finish_retains_handle_counterexample :
    run exactLib (initWorld exactLib)
      [Input.inbox (press 30) 0 true, Input.inbox (release 30) 10 true,
        Input.runReturns 0 false, Input.done 0 true] =
    Except.ok
      { fsm := { ctx := some 0, lastev := some (press 30), pause := false,
                 State := Fn.stInit, elapsedString := "0", elapsed := 0,
                 cancel := some 1, StartTime := 10 },
        inTimer := false, nextCtx := 2,
        trace := [Effect.exec Command.beginCommand ["0"] 0,
                  Effect.exec Command.endCommand ["0"] 1],
        running := [], sending := [], received := [0] } := by
  decide

/-- C3 as amended: in the wait of stTimer, when a completion signal is received
and the end command starts, the trace grows by exactly one command, end with
the current elapsed text as its single argument, and by no cancel; the machine
is Idle (State = stInit, the goroutine back in the select of main); the stored
cancel handle is now the handle of that end command, and `fsm.ctx` is as
before. -/
theorem completion_launches_end_and_stores_its_handle (L : Lib F) (w : World F)
    (k : Nat) (hT : w.inTimer = true) (hk : k ∈ w.sending) :
    ∃ w1, step L w (Input.done k true) = .ok w1 ∧
      w1.trace = w.trace ++
        [Effect.exec Command.endCommand [w.fsm.elapsedString] w.nextCtx] ∧
      w1.fsm.State = Fn.stInit ∧ w1.inTimer = false ∧
      w1.fsm.cancel = some w.nextCtx ∧
      w1.fsm.ctx = w.fsm.ctx ∧
      w1.sending = w.sending.erase k ∧
      w1.received = w.received ++ [k] := by
  simp [step, settle, stTimerSelect, stEnd, stInit, execFresh, hT, hk]

/-- Witness of C3 as amended: the wait of stTimer with the goroutine of
context 0 blocked in its send. -/
theorem completion_launches_end_and_stores_its_handle_witness :
    ∃ w1, step exactLib
        { initWorld exactLib with inTimer := true, nextCtx := 1, sending := [0] }
        (Input.done 0 true) = .ok w1 ∧
      w1.fsm.State = Fn.stInit ∧ w1.fsm.cancel = some 1 := by
  obtain ⟨w1, h, _, hs, _, hc, _⟩ :=
    completion_launches_end_and_stores_its_handle exactLib
      { initWorld exactLib with inTimer := true, nextCtx := 1, sending := [0] } 0 rfl
      (by decide)
  exact ⟨w1, h, hs, hc⟩

/-- C4 fails as stated: a press and release of key 30 on a fresh machine, then
a press of key 5 received in the wait of stTimer.  The press by itself only
records the event and returns stPause to main: nothing is cancelled, no pause
command is launched, `elapsed` and the elapsed text are as before, the pause
flag is still false and the goroutine is no longer in the wait. -/
theorem press_alone_does_not_pause_counterexample :
    run exactLib (initWorld exactLib)
      [Input.inbox (press 30) 0 true, Input.inbox (release 30) 10 true,
        Input.inbox (press 5) 2000000010 true] =
    Except.ok
      { fsm := { ctx := some 0, lastev := some (press 5), pause := false,
                 State := Fn.stPause, elapsedString := "0", elapsed := 0,
                 cancel := some 0, StartTime := 10 },
        inTimer := false, nextCtx := 1,
        trace := [Effect.exec Command.beginCommand ["0"] 0],
        running := [0], sending := [], received := [] } := by
  decide

/-- C4 as amended: in the wait of stTimer with the pause flag false and a
cancel handle `c` stored, a press only records the event as lastev and returns
stPause to main, with no effect; the pause-on effects come with the next key
event that main dispatches, whatever its code and value: `c` is invoked, the
pause command is launched exactly once with no arguments and, when it starts,
`elapsed` grows by the seconds of `now - StartTime` (`now` read at that
dispatch), the elapsed text is the formatting of that segment, the handle of
the pause command is stored and the goroutine is back in the wait with the
pause flag true. -/
theorem pause_on_at_next_key_event (L : Lib F) (w : World F) (c : Nat)
    (p e : Event) (n1 now : Int) (o1 : Bool)
    (hT : w.inTimer = true) (hpause : w.fsm.pause = false)
    (hc : w.fsm.cancel = some c) (hpv : p.Value = 1) (he : e.EvType = L.EvKeys) :
    ∃ w1 w2, step L w (Input.inbox p n1 o1) = .ok w1 ∧
      w1.trace = w.trace ∧ w1.fsm.pause = false ∧ w1.inTimer = false ∧
      w1.fsm.State = Fn.stPause ∧ w1.fsm.lastev = some p ∧
      w1.fsm.elapsed = w.fsm.elapsed ∧
      step L w1 (Input.inbox e now true) = .ok w2 ∧
      w2.trace = w.trace ++
        [Effect.cancel c, Effect.exec Command.pauseCommand [] w.nextCtx] ∧
      w2.fsm.elapsed = L.add w.fsm.elapsed (L.seconds (Since now w.fsm.StartTime)) ∧
      w2.fsm.elapsedString = L.format (L.seconds (Since now w.fsm.StartTime)) ∧
      w2.inTimer = true ∧ w2.fsm.pause = true ∧
      w2.fsm.cancel = some w.nextCtx ∧ w2.fsm.lastev = some p := by
  simp [step, mainCase, callState, settle, stTimerSelect, stPause, stTimer, execFresh,
    invokeCancel, hT, hpause, hc, hpv, he]

/-- Witness of C4 as amended: the begin command of context 0 running since
instant 10, key 5 pressed, its release dispatched two seconds after the start. -/
theorem pause_on_at_next_key_event_witness :
    ∃ w1 w2, step exactLib
        { initWorld exactLib with
          fsm := { NewFsm exactLib with cancel := some 0, StartTime := 10 },
          inTimer := true, nextCtx := 1 }
        (Input.inbox (press 5) 0 true) = .ok w1 ∧
      step exactLib w1 (Input.inbox (release 5) 2000000010 true) = .ok w2 ∧
      w2.trace = [Effect.cancel 0, Effect.exec Command.pauseCommand [] 1] ∧
      w2.fsm.elapsed = 2000000000 ∧ w2.fsm.pause = true := by
  obtain ⟨w1, w2, h1, _, _, _, _, _, _, h2, ht, hel, _, _, hp, _⟩ :=
    pause_on_at_next_key_event exactLib
      { initWorld exactLib with
        fsm := { NewFsm exactLib with cancel := some 0, StartTime := 10 },
        inTimer := true, nextCtx := 1 }
      0 (press 5) (release 5) 0 2000000010 true rfl rfl rfl rfl rfl
  exact ⟨w1, w2, h1, h2, by simpa [initWorld] using ht, by rw [hel]; decide, hp⟩

/-- In AwaitingRelease the release of the recorded key launches begin with the
current elapsed text and blocks the goroutine in the wait of stTimer. -/
theorem step_awaiting_release (L : Lib F) (w : World F) (l r : Event) (now : Int)
    (o : Bool) (hmain : w.inTimer = false) (hs : w.fsm.State = Fn.stStart)
    (hl : w.fsm.lastev = some l) (hr : r.EvType = L.EvKeys) (hrv : r.Value = 0)
    (hcode : r.Code = l.Code) :
    step L w (Input.inbox r now o) = .ok
      { w with
        fsm := { w.fsm with StartTime := now, ctx := some w.nextCtx,
                            cancel := some w.nextCtx },
        inTimer := true, nextCtx := w.nextCtx + 1,
        trace := w.trace ++
          [Effect.exec Command.beginCommand [w.fsm.elapsedString] w.nextCtx],
        running := w.running ++ [w.nextCtx] } := by
  simp [step, mainCase, callState, settle, stStart, stTimer, execFresh, hmain, hs, hl,
    hr, hrv, hcode]

/-- In the state stPause with the pause flag true, a dispatched key event that
is not the release of the recorded key flips the flag, invokes the stored
handle and leaves the machine in AwaitingRelease. -/
theorem step_unpause_other (L : Lib F) (w : World F) (h : Nat) (l : Event)
    (i : Input) (hmain : w.inTimer = false) (hs : w.fsm.State = Fn.stPause)
    (hpause : w.fsm.pause = true) (hc : w.fsm.cancel = some h)
    (hl : w.fsm.lastev = some l) (hk : keyEvent L i = true)
    (hi : otherThanRelease l.Code i = true) :
    step L w i = .ok
      { w with
        fsm := { w.fsm with pause := false, State := Fn.stStart },
        trace := w.trace ++ [Effect.cancel h] } := by
  cases i with
  | inbox ev now ok =>
    simp only [otherThanRelease, Bool.not_eq_true', Bool.and_eq_false_imp,
      decide_eq_true_eq, decide_eq_false_iff_not] at hi
    simp only [keyEvent, decide_eq_true_eq] at hk
    by_cases hv : ev.Value = 0
    · simp [step, mainCase, callState, settle, stPause, stStart, invokeCancel, hmain, hs,
        hpause, hc, hl, hk, hv, hi hv]
    · simp [step, mainCase, callState, settle, stPause, stStart, invokeCancel, hmain, hs,
        hpause, hc, hl, hk, hv]
  | done k ok => simp [keyEvent] at hk
  | tick => simp [keyEvent] at hk
  | runReturns k err => simp [keyEvent] at hk

/-- C5: in the wait of stTimer with the pause flag true and the handle `h` of
the pause command stored, a second press of key K is recorded and returns
stPause to main.  Whatever key events follow, as long as none is a release of
K, no command is launched, and `h` is invoked by the first of them; when the
release of K is dispatched after them, `h` has been invoked exactly once,
exactly one begin command is launched, with the current elapsed text, and the
goroutine is in the wait of stTimer again with the pause flag false. -/
theorem second_press_gates_begin_on_release (L : Lib F) (w : World F) (h : Nat)
    (p r : Event) (n1 n2 : Int) (o1 o2 : Bool) (ins : List Input)
    (hT : w.inTimer = true) (hpause : w.fsm.pause = true)
    (hc : w.fsm.cancel = some h) (hpv : p.Value = 1)
    (hins : ∀ i ∈ ins, keyEvent L i = true ∧ otherThanRelease p.Code i = true)
    (hr : r.EvType = L.EvKeys) (hrv : r.Value = 0) (hcode : r.Code = p.Code) :
    (∃ w1, run L w (Input.inbox p n1 o1 :: ins) = .ok w1 ∧
      w1.trace = w.trace ++ (if ins.isEmpty then [] else [Effect.cancel h]) ∧
      launched w1.trace = launched w.trace ∧ w1.inTimer = false) ∧
    (∃ w2, run L w (Input.inbox p n1 o1 :: (ins ++ [Input.inbox r n2 o2])) = .ok w2 ∧
      w2.trace = w.trace ++
        [Effect.cancel h,
         Effect.exec Command.beginCommand [w.fsm.elapsedString] w.nextCtx] ∧
      launched w2.trace =
        launched w.trace ++ [(Command.beginCommand, [w.fsm.elapsedString])] ∧
      w2.inTimer = true ∧ w2.fsm.pause = false ∧ w2.fsm.StartTime = n2 ∧
      w2.fsm.cancel = some w.nextCtx) := by
  have h0 : step L w (Input.inbox p n1 o1) = .ok
      { w with fsm := { w.fsm with lastev := some p, State := Fn.stPause },
               inTimer := false } := by
    simp [step, settle, stTimerSelect, hT, hpv]
  cases ins with
  | nil =>
    constructor
    · refine ⟨{ w with fsm := { w.fsm with lastev := some p, State := Fn.stPause },
                       inTimer := false }, ?_, ?_, rfl, rfl⟩
      · simp only [run, h0]
      · simp
    · simp only [run, h0, List.nil_append]
      simp [step, mainCase, callState, settle, stPause, stStart, stTimer,
        execFresh, invokeCancel, launched_append, launched, hpause, hc, hr, hrv, hcode]
  | cons i rest =>
    have hi := hins i (List.mem_cons_self _ _)
    have h1 := step_unpause_other L
      { w with fsm := { w.fsm with lastev := some p, State := Fn.stPause },
               inTimer := false }
      h p i rfl rfl hpause hc rfl hi.1 hi.2
    have h2 := run_awaiting_other L
      { w with fsm := { w.fsm with lastev := some p, State := Fn.stStart, pause := false },
               inTimer := false,
               trace := w.trace ++ [Effect.cancel h] }
      p rest rfl rfl rfl (fun j hj => (hins j (List.mem_cons_of_mem _ hj)).2)
    have h3 := step_awaiting_release L
      { w with fsm := { w.fsm with lastev := some p, State := Fn.stStart, pause := false },
               inTimer := false,
               trace := w.trace ++ [Effect.cancel h] }
      p r n2 o2 rfl rfl rfl hr hrv hcode
    have hrun1 := (run_cons_ok L _ _ _ (i :: rest) h0).trans
      ((run_cons_ok L _ _ _ rest h1).trans h2)
    have hrun2 := (run_cons_ok L _ _ _ ((i :: rest) ++ [Input.inbox r n2 o2]) h0).trans
      ((run_cons_ok L _ _ _ (rest ++ [Input.inbox r n2 o2]) h1).trans
        ((run_append_ok L _ _ rest [Input.inbox r n2 o2] h2).trans
          ((run_single L _ _).trans h3)))
    constructor
    · exact ⟨_, hrun1, by simp, by simp [launched_append, launched], rfl⟩
    · exact ⟨_, hrun2, by simp, by simp [launched_append, launched], rfl, rfl, rfl, rfl⟩

/-- Witness of C5: paused with the pause command of context 1, key 5 pressed,
then a press of key 7 and the release of key 5. -/
theorem second_press_gates_begin_on_release_witness :
    ∃ w2, run exactLib
        { initWorld exactLib with
          fsm := { NewFsm exactLib with pause := true, cancel := some 1,
                                        elapsedString := "2" },
          inTimer := true, nextCtx := 2 }
        [Input.inbox (press 5) 0 true, Input.inbox (press 7) 1 true,
          Input.inbox (release 5) 2 true] = .ok w2 ∧
      w2.trace = [Effect.cancel 1, Effect.exec Command.beginCommand ["2"] 2] ∧
      w2.inTimer = true ∧ w2.fsm.pause = false := by
  obtain ⟨w2, h, ht, _, hi, hp, _⟩ :=
    (second_press_gates_begin_on_release exactLib
      { initWorld exactLib with
        fsm := { NewFsm exactLib with pause := true, cancel := some 1,
                                      elapsedString := "2" },
        inTimer := true, nextCtx := 2 }
      1 (press 5) (release 5) 0 2 true true [Input.inbox (press 7) 1 true]
      rfl rfl rfl rfl (by decide) rfl rfl rfl).2
  exact ⟨w2, h, by simpa [initWorld] using ht, hi, hp⟩

/-- C6 fails as stated: a press and release of key 30 on a fresh machine, and
the begin command failing to start (`cmd.Run()` returns an error at once).
The goroutine is blocked in the wait of stTimer, not back in Idle, and the
cancel handle of the failed launch (context 0) is stored. -/
theorem begin_failure_not_idle_counterexample :
    run exactLib (initWorld exactLib)
      [Input.inbox (press 30) 0 true, Input.inbox (release 30) 10 true,
        Input.runReturns 0 true] =
    Except.ok
      { fsm := { ctx := some 0, lastev := some (press 30), pause := false,
                 State := Fn.stStart, elapsedString := "0", elapsed := 0,
                 cancel := some 0, StartTime := 10 },
        inTimer := true, nextCtx := 1,
        trace := [Effect.exec Command.beginCommand ["0"] 0],
        running := [], sending := [], received := [] } := by
  decide

/-- C6 as amended: in AwaitingRelease with key K recorded, the release of K
launches begin in a goroutine and blocks the main goroutine in the wait of
stTimer, with StartTime set and the cancel handle of the new context stored;
when `cmd.Run()` then returns an error (the command cannot be started) nothing
of that changes: the machine stays in the wait, the handle of the failed launch
stays stored, and no completion signal is sent. -/
theorem begin_failure_stays_in_wait (L : Lib F) (w : World F) (l r : Event)
    (now : Int) (o : Bool)
    (hmain : w.inTimer = false) (hs : w.fsm.State = Fn.stStart)
    (hl : w.fsm.lastev = some l) (hr : r.EvType = L.EvKeys) (hrv : r.Value = 0)
    (hcode : r.Code = l.Code) :
    ∃ w1 w2, step L w (Input.inbox r now o) = .ok w1 ∧
      w1.trace = w.trace ++
        [Effect.exec Command.beginCommand [w.fsm.elapsedString] w.nextCtx] ∧
      step L w1 (Input.runReturns w.nextCtx true) = .ok w2 ∧
      w2.inTimer = true ∧
      w2.fsm.cancel = some w.nextCtx ∧
      w2.fsm.StartTime = now ∧
      w2.fsm = w1.fsm ∧
      w2.trace = w1.trace ∧
      w2.sending = w.sending := by
  obtain ⟨w1, h1, ht1, hi1, hc1, hs1, hsend1, hrun1⟩ :
      ∃ w1, step L w (Input.inbox r now o) = .ok w1 ∧
        w1.trace = w.trace ++
          [Effect.exec Command.beginCommand [w.fsm.elapsedString] w.nextCtx] ∧
        w1.inTimer = true ∧ w1.fsm.cancel = some w.nextCtx ∧ w1.fsm.StartTime = now ∧
        w1.sending = w.sending ∧ w.nextCtx ∈ w1.running :=
    ⟨_, step_awaiting_release L w l r now o hmain hs hl hr hrv hcode, rfl, rfl, rfl, rfl,
      rfl, by simp⟩
  refine ⟨w1, _, h1, ht1, step_runReturns_err L w1 w.nextCtx hrun1, hi1, hc1, hs1, rfl,
    rfl, hsend1⟩

/-- Witness of C6 as amended: key 30 recorded, its release dispatched at
instant 10. -/
theorem begin_failure_stays_in_wait_witness :
    ∃ w1 w2, step exactLib
        { initWorld exactLib with
          fsm := { NewFsm exactLib with lastev := some (press 30), State := Fn.stStart,
                                        elapsedString := "0" } }
        (Input.inbox (release 30) 10 true) = .ok w1 ∧
      step exactLib w1 (Input.runReturns 0 true) = .ok w2 ∧
      w2.inTimer = true ∧ w2.fsm.cancel = some 0 ∧ w2.sending = [] := by
  obtain ⟨w1, w2, h1, _, h2, hi, hc, _, _, _, hs⟩ :=
    begin_failure_stays_in_wait exactLib
      { initWorld exactLib with
        fsm := { NewFsm exactLib with lastev := some (press 30), State := Fn.stStart,
                                      elapsedString := "0" } }
      (press 30) (release 30) 10 true rfl rfl rfl rfl rfl rfl
  exact ⟨w1, w2, h1, h2, hi, hc, hs⟩

/-- The select of main drops an event that is not of the key class: nothing
changes (lines 175-177). -/
theorem main_drops_non_key_event (L : Lib F) (w : World F) (ev : Event) (now : Int)
    (o : Bool) (hmain : w.inTimer = false) (hty : ev.EvType ≠ L.EvKeys) :
    step L w (Input.inbox ev now o) = .ok w := by
  simp [step, mainCase, hmain, hty]

/-- C7, the code at the failing input: a press and release of key 30 on a fresh
machine, then an event of class 2 (not the key class 1 of `exactLib`) with
value 1, read from the inbox by the wait of stTimer.  The event is not
discarded: it is recorded as lastev and the wait returns stPause to main, so the
machine has left the Running wait. -/
theorem non_key_event_in_wait_not_discarded :
    run exactLib (initWorld exactLib)
      [Input.inbox (press 30) 0 true, Input.inbox (release 30) 10 true,
        Input.inbox { EvType := 2, Code := 0, Value := 1 } 20 true] =
    Except.ok
      { fsm := { ctx := some 0, lastev := some { EvType := 2, Code := 0, Value := 1 },
                 pause := false, State := Fn.stPause, elapsedString := "0", elapsed := 0,
                 cancel := some 0, StartTime := 10 },
        inTimer := false, nextCtx := 1,
        trace := [Effect.exec Command.beginCommand ["0"] 0],
        running := [0], sending := [], received := [] } := by
  decide

/-- C8, the code at the failing input.  Key 30 opens a cycle (begin of context
0); key 5 is pressed; the begin command returns cleanly while the goroutine is
in the select of main, so its send on `fsm.done` stays pending; the release of
key 5 runs pause-on (the handle of context 0 is invoked, pause of context 1 is
started); the next wait takes a second press of key 5 from the inbox; its
release resumes with a new begin (context 2); the wait then receives the
pending signal of context 0 and runs stEnd: the end command is launched and the
machine is Idle while the begin command of context 2 is still running. -/
theorem stale_completion_finishes_newer_process :
    run exactLib (initWorld exactLib)
      [Input.inbox (press 30) 0 true, Input.inbox (release 30) 10 true,
        Input.inbox (press 5) 100 true, Input.runReturns 0 false,
        Input.inbox (release 5) 2000000010 true,
        Input.inbox (press 5) 2000000020 true,
        Input.inbox (release 5) 3000000000 true,
        Input.done 0 true] =
    Except.ok
      { fsm := { ctx := some 2, lastev := some (press 5), pause := false,
                 State := Fn.stInit, elapsedString := "2", elapsed := 2000000000,
                 cancel := some 3, StartTime := 3000000000 },
        inTimer := false, nextCtx := 4,
        trace := [Effect.exec Command.beginCommand ["0"] 0,
                  Effect.cancel 0,
                  Effect.exec Command.pauseCommand [] 1,
                  Effect.cancel 1,
                  Effect.exec Command.beginCommand ["2"] 2,
                  Effect.exec Command.endCommand ["2"] 3],
        running := [2], sending := [], received := [0] } := by
  decide

/-- C9, the code at the failing input: the run in which the pending signal of
context 0 ends the cycle of context 2, followed by a press and release of key
30.  stStart launches the begin command of context 4 (the last effect of the
trace) while the begin command of context 2 is still running: its cancel handle
was never invoked (the handles invoked are those of contexts 0, 1 and 3) and
its completion signal was never received (only that of context 0 was). -/
theorem begin_launched_beside_live_process :
    ∃ w, run exactLib (initWorld exactLib)
        [Input.inbox (press 30) 0 true, Input.inbox (release 30) 10 true,
          Input.inbox (press 5) 100 true, Input.runReturns 0 false,
          Input.inbox (release 5) 2000000010 true,
          Input.inbox (press 5) 2000000020 true,
          Input.inbox (release 5) 3000000000 true,
          Input.done 0 true,
          Input.inbox (press 30) 4000000000 true,
          Input.inbox (release 30) 4000000010 true] = .ok w ∧
      w.trace = [Effect.exec Command.beginCommand ["0"] 0,
                 Effect.cancel 0,
                 Effect.exec Command.pauseCommand [] 1,
                 Effect.cancel 1,
                 Effect.exec Command.beginCommand ["2"] 2,
                 Effect.exec Command.endCommand ["2"] 3,
                 Effect.cancel 3,
                 Effect.exec Command.beginCommand ["0"] 4] ∧
      cancelled w.trace = [0, 1, 3] ∧
      w.received = [0] ∧
      w.running = [2, 4] ∧
      w.inTimer = true ∧ w.fsm.cancel = some 4 := by
  refine ⟨{ fsm := { ctx := some 4, lastev := some (press 30), pause := false,
                     State := Fn.stStart, elapsedString := "0", elapsed := 2000000000,
                     cancel := some 4, StartTime := 4000000010 },
            inTimer := true, nextCtx := 5,
            trace := [Effect.exec Command.beginCommand ["0"] 0,
                      Effect.cancel 0,
                      Effect.exec Command.pauseCommand [] 1,
                      Effect.cancel 1,
                      Effect.exec Command.beginCommand ["2"] 2,
                      Effect.exec Command.endCommand ["2"] 3,
                      Effect.cancel 3,
                      Effect.exec Command.beginCommand ["0"] 4],
            running := [2, 4], sending := [], received := [0] }, ?_, rfl, ?_, rfl, rfl, rfl,
    rfl⟩
  · decide
  · decide

/-- C10 fails as stated: a first cycle with one pause of two seconds (press and
release of key 30, press and release of key 5, the cancelled begin command
returning an error, press and release of key 5 again, the new begin command
returning cleanly and its completion received), then the press of key 30 that
opens the second cycle.  After that press the machine is in AwaitingRelease
with the elapsed text "0", and `elapsed` is still the two seconds of the first
cycle, not zero. -/
theorem elapsed_not_reset_counterexample :
    run exactLib (initWorld exactLib)
      [Input.inbox (press 30) 0 true, Input.inbox (release 30) 10 true,
        Input.inbox (press 5) 100 true,
        Input.inbox (release 5) 2000000010 true, Input.runReturns 0 true,
        Input.inbox (press 5) 2000000020 true,
        Input.inbox (release 5) 3000000000 true,
        Input.runReturns 2 false, Input.done 2 true,
        Input.inbox (press 30) 4000000000 true] =
    Except.ok
      { fsm := { ctx := some 2, lastev := some (press 30), pause := false,
                 State := Fn.stStart, elapsedString := "0", elapsed := 2000000000,
                 cancel := some 3, StartTime := 3000000000 },
        inTimer := false, nextCtx := 4,
        trace := [Effect.exec Command.beginCommand ["0"] 0,
                  Effect.cancel 0,
                  Effect.exec Command.pauseCommand [] 1,
                  Effect.cancel 1,
                  Effect.exec Command.beginCommand ["2"] 2,
                  Effect.exec Command.endCommand ["2"] 3,
                  Effect.cancel 3],
        running := [], sending := [], received := [2] } := by
  decide

/-- C10 as amended: from Idle, the transition to AwaitingRelease taken on a
dispatched press resets the elapsed text to "0" and leaves `elapsed` as it
was. -/
theorem idle_press_keeps_elapsed (L : Lib F) (w : World F) (p : Event) (n : Int)
    (o : Bool) (hmain : w.inTimer = false) (hidle : w.fsm.State = Fn.stInit)
    (hp : p.EvType = L.EvKeys) (hpv : p.Value = 1) :
    ∃ w1, step L w (Input.inbox p n o) = .ok w1 ∧
      w1.fsm.State = Fn.stStart ∧ w1.inTimer = false ∧
      w1.fsm.elapsedString = "0" ∧
      w1.fsm.elapsed = w.fsm.elapsed := by
  cases hc : w.fsm.cancel <;>
    simp [step, mainCase, callState, settle, stInit, invokeCancel, hmain, hidle, hp, hpv,
      hc]

/-- Witness of C10 as amended: an idle machine that has accumulated two
seconds. -/
theorem idle_press_keeps_elapsed_witness :
    ∃ w1, step exactLib
        { initWorld exactLib with
          fsm := { NewFsm exactLib with elapsed := 2000000000, elapsedString := "2" } }
        (Input.inbox (press 30) 0 true) = .ok w1 ∧
      w1.fsm.elapsedString = "0" ∧ w1.fsm.elapsed = 2000000000 := by
  obtain ⟨w1, h, _, _, hs, he⟩ :=
    idle_press_keeps_elapsed exactLib
      { initWorld exactLib with
        fsm := { NewFsm exactLib with elapsed := 2000000000, elapsedString := "2" } }
      (press 30) 0 true rfl rfl rfl rfl
  exact ⟨w1, h, hs, he⟩

theorem settle_wait_same (w : World F) (hT : w.inTimer = true) :
    settle (.ok (Next.wait, w)) = .ok w := by
  obtain ⟨fsm, inTimer, nextCtx, trace, running, sending, received⟩ := w
  simp only at hT
  subst hT
  rfl

/-- In the wait of stTimer the timeout and an event that is not a press change
nothing. -/
theorem step_wait_quiet (L : Lib F) (w : World F) (i : Input) (hT : w.inTimer = true)
    (hq : quiet i = true) : step L w i = .ok w := by
  cases i with
  | inbox ev now o =>
    simp only [quiet, decide_eq_true_eq] at hq
    simp only [step, hT, if_true, stTimerSelect, hq, if_false, stTimer]
    exact settle_wait_same w hT
  | done k o => simp [quiet] at hq
  | tick =>
    simp only [step, hT, if_true, stTimerSelect, stTimer]
    exact settle_wait_same w hT
  | runReturns k err => simp [quiet] at hq

theorem run_wait_quiet (L : Lib F) (w : World F) (ins : List Input)
    (hT : w.inTimer = true) (hq : ∀ i ∈ ins, quiet i = true) :
    run L w ins = .ok w := by
  induction ins with
  | nil => rfl
  | cons i ins ih =>
    have h1 := step_wait_quiet L w i hT (hq i (List.mem_cons_self _ _))
    simp only [run, h1]
    exact ih (fun j hj => hq j (List.mem_cons_of_mem _ hj))

/-- C12: when stPause is run with the pause flag false (the pause-on branch) and
the pause command fails to start, the stored handle is invoked, the failed
pause attempt is the only command of the step, the machine is Idle (State =
stInit, the goroutine in the select of main), and `elapsed`, the elapsed text
and the stored cancel handle are as before the attempt. -/
theorem pause_launch_failure_reverts_to_idle (L : Lib F) (w : World F) (c : Nat)
    (e : Event) (now : Int)
    (hmain : w.inTimer = false) (hs : w.fsm.State = Fn.stPause)
    (hpause : w.fsm.pause = false) (hc : w.fsm.cancel = some c)
    (he : e.EvType = L.EvKeys) :
    ∃ w1, step L w (Input.inbox e now false) = .ok w1 ∧
      w1.fsm.State = Fn.stInit ∧ w1.inTimer = false ∧
      w1.trace = w.trace ++
        [Effect.cancel c, Effect.exec Command.pauseCommand [] w.nextCtx] ∧
      launched w1.trace = launched w.trace ++ [(Command.pauseCommand, [])] ∧
      w1.fsm.elapsed = w.fsm.elapsed ∧
      w1.fsm.elapsedString = w.fsm.elapsedString ∧
      w1.fsm.cancel = some c ∧
      w1.fsm.StartTime = w.fsm.StartTime ∧
      w1.running = w.running := by
  simp [step, mainCase, callState, settle, stPause, execFresh, invokeCancel,
    launched_append, launched, hmain, hs, hpause, hc, he]

/-- Witness of C12: the begin command of context 0 running, stPause pending,
the release of key 5 dispatched while the pause command cannot start. -/
theorem pause_launch_failure_reverts_to_idle_witness :
    ∃ w1, step exactLib
        { initWorld exactLib with
          fsm := { NewFsm exactLib with State := Fn.stPause, cancel := some 0,
                                        lastev := some (press 5), elapsedString := "0" },
          nextCtx := 1, running := [0] }
        (Input.inbox (release 5) 20 false) = .ok w1 ∧
      w1.fsm.State = Fn.stInit ∧ w1.fsm.elapsedString = "0" ∧ w1.fsm.cancel = some 0 := by
  obtain ⟨w1, h, hs, _, _, _, _, ht, hc, _⟩ :=
    pause_launch_failure_reverts_to_idle exactLib
      { initWorld exactLib with
        fsm := { NewFsm exactLib with State := Fn.stPause, cancel := some 0,
                                      lastev := some (press 5), elapsedString := "0" },
        nextCtx := 1, running := [0] }
      0 (release 5) 20 rfl rfl rfl rfl rfl
  exact ⟨w1, h, hs, ht, hc⟩

/-- C13: in Idle (State = stInit, the goroutine in the select of main), an
input of stInit that is not a press, a nil event or an event whose value is not
1, makes stInit return stInit with the program state untouched: no field of
the Fsm changes, nothing is launched and nothing is cancelled; so the dispatch
of such an event by main leaves the whole state as it was. -/
theorem idle_ignores_non_press (L : Lib F) (w : World F) (ev : Option Event)
    (now : Int) (o : Bool)
    (hmain : w.inTimer = false) (hidle : w.fsm.State = Fn.stInit)
    (hev : ∀ e, ev = some e → e.Value ≠ 1) :
    stInit w ev = .ok (Next.ret Fn.stInit, w) ∧
    settle (callState L w ev now o) = .ok w ∧
    ∀ e, ev = some e → step L w (Input.inbox e now o) = .ok w := by
  have h1 : stInit w ev = .ok (Next.ret Fn.stInit, w) := by
    cases ev with
    | none => rfl
    | some e => simp [stInit, hev e rfl]
  have h2 : settle (callState L w ev now o) = .ok w := by
    simp only [callState, hidle, h1]
    exact settle_ret_same w _ hmain hidle
  refine ⟨h1, h2, ?_⟩
  intro e he
  subst he
  simp only [step, hmain, Bool.false_eq_true, if_false, mainCase]
  by_cases hty : e.EvType = L.EvKeys
  · simp only [hty, ne_eq, not_true_eq_false, if_false]
    exact h2
  · simp [hty]

/-- Witness of C13: a release of key 30 dispatched to a fresh machine. -/
theorem idle_ignores_non_press_witness :
    step exactLib (initWorld exactLib) (Input.inbox (release 30) 0 true) =
      .ok (initWorld exactLib) :=
  (idle_ignores_non_press exactLib (initWorld exactLib) (some (release 30)) 0 true rfl rfl
    (by decide)).2.2 (release 30) rfl

/-- C14: in the wait of stTimer, the timeout and a received event whose value
is not 1 leave the whole program state as it was, the goroutine still in the
wait; a step that keeps the goroutine in the wait changes no field of the Fsm
and adds nothing to the trace; and a step that ends the wait is either a
received press, which is recorded as lastev and returns stPause with nothing
launched or cancelled, or a received completion signal, which launches the end
command and returns stInit. -/
theorem running_wait_rearms (L : Lib F) (w : World F) (i : Input)
    (hT : w.inTimer = true) :
    (quiet i = true → step L w i = .ok w) ∧
    (∀ w1, step L w i = .ok w1 → w1.inTimer = true →
      w1.fsm = w.fsm ∧ w1.trace = w.trace) ∧
    (∀ w1, step L w i = .ok w1 → w1.inTimer = false →
      (∃ ev now o, i = Input.inbox ev now o ∧ ev.Value = 1 ∧
        w1.fsm.State = Fn.stPause ∧ w1.fsm.lastev = some ev ∧ w1.trace = w.trace) ∨
      (∃ k o, i = Input.done k o ∧ k ∈ w.sending ∧ w1.fsm.State = Fn.stInit ∧
        w1.trace = w.trace ++
          [Effect.exec Command.endCommand [w.fsm.elapsedString] w.nextCtx])) := by
  refine ⟨step_wait_quiet L w i hT, ?_, ?_⟩
  · intro w1 h1 hin
    cases i with
    | inbox ev now o =>
      by_cases hv : ev.Value = 1
      · simp [step, hT, stTimerSelect, hv, settle] at h1
        subst h1
        simp at hin
      · rw [step_wait_quiet L w _ hT (by simp [quiet, hv])] at h1
        simp only [Except.ok.injEq] at h1
        subst h1
        exact ⟨rfl, rfl⟩
    | done k o =>
      by_cases hk : k ∈ w.sending
      · cases o <;>
          simp [step, hT, hk, stTimerSelect, stEnd, stInit, execFresh, settle] at h1 <;>
          (subst h1; simp at hin)
      · simp [step, hk] at h1
    | tick =>
      rw [step_wait_quiet L w Input.tick hT rfl] at h1
      simp only [Except.ok.injEq] at h1
      subst h1
      exact ⟨rfl, rfl⟩
    | runReturns k err =>
      by_cases hk : k ∈ w.running
      · simp [step, hk] at h1
        subst h1
        exact ⟨rfl, rfl⟩
      · simp [step, hk] at h1
  · intro w1 h1 hout
    cases i with
    | inbox ev now o =>
      by_cases hv : ev.Value = 1
      · simp [step, hT, stTimerSelect, hv, settle] at h1
        subst h1
        exact Or.inl ⟨ev, now, o, rfl, hv, rfl, rfl, rfl⟩
      · rw [step_wait_quiet L w _ hT (by simp [quiet, hv])] at h1
        simp only [Except.ok.injEq] at h1
        subst h1
        simp [hT] at hout
    | done k o =>
      by_cases hk : k ∈ w.sending
      · cases o <;>
          simp [step, hT, hk, stTimerSelect, stEnd, stInit, execFresh, settle] at h1 <;>
          (subst h1; exact Or.inr ⟨k, _, rfl, hk, rfl, rfl⟩)
      · simp [step, hk] at h1
    | tick =>
      rw [step_wait_quiet L w Input.tick hT rfl] at h1
      simp only [Except.ok.injEq] at h1
      subst h1
      simp [hT] at hout
    | runReturns k err =>
      by_cases hk : k ∈ w.running
      · simp [step, hk] at h1
        subst h1
        simp [hT] at hout
      · simp [step, hk] at h1

/-- Witness of C14: the timeout fires while the begin command of context 0 is
running. -/
theorem running_wait_rearms_witness :
    step exactLib
        { initWorld exactLib with
          fsm := { NewFsm exactLib with cancel := some 0, State := Fn.stStart },
          inTimer := true, nextCtx := 1, running := [0] }
        Input.tick =
      .ok { initWorld exactLib with
            fsm := { NewFsm exactLib with cancel := some 0, State := Fn.stStart },
            inTimer := true, nextCtx := 1, running := [0] } :=
  (running_wait_rearms exactLib
    { initWorld exactLib with
      fsm := { NewFsm exactLib with cancel := some 0, State := Fn.stStart },
      inTimer := true, nextCtx := 1, running := [0] }
    Input.tick rfl).1 rfl

theorem Since_nonneg (now start : Int) (h : start ≤ now) : 0 ≤ Since now start := by
  unfold Since maxDuration minDuration
  have h1 : (0 : Int) ≤ now - start := by omega
  have h2 : (0 : Int) ≤ min (2 ^ 63 - 1) (now - start) := le_min (by norm_num) h1
  exact le_trans h2 (le_max_right _ _)

theorem stInit_elapsed (w w1 : World F) (ev : Option Event) (n : Next)
    (h : stInit w ev = .ok (n, w1)) : w1.fsm.elapsed = w.fsm.elapsed := by
  unfold stInit at h
  split at h
  · simp only [Except.ok.injEq, Prod.mk.injEq] at h
    rw [← h.2]
  · split at h
    · simp only [Except.ok.injEq, Prod.mk.injEq] at h
      rw [← h.2]
      cases w.fsm.cancel <;> rfl
    · simp only [Except.ok.injEq, Prod.mk.injEq] at h
      rw [← h.2]

theorem stStart_elapsed (w w1 : World F) (ev : Option Event) (now : Int) (n : Next)
    (h : stStart w ev now = .ok (n, w1)) : w1.fsm.elapsed = w.fsm.elapsed := by
  unfold stStart at h
  split at h
  · simp at h
  · split at h
    · split at h
      · simp at h
      · split at h
        · simp only [stTimer, execFresh, Except.ok.injEq, Prod.mk.injEq] at h
          rw [← h.2]
        · simp only [Except.ok.injEq, Prod.mk.injEq] at h
          rw [← h.2]
    · simp only [Except.ok.injEq, Prod.mk.injEq] at h
      rw [← h.2]

theorem stEnd_elapsed (w w1 : World F) (ev : Option Event) (o : Bool) (n : Next)
    (h : stEnd w ev o = .ok (n, w1)) : w1.fsm.elapsed = w.fsm.elapsed := by
  unfold stEnd at h
  simp only [execFresh] at h
  split at h
  · have h1 := stInit_elapsed _ _ _ _ h
    exact h1
  · simp only [Except.ok.injEq, Prod.mk.injEq] at h
    rw [← h.2]

theorem stTimerSelect_elapsed (w w1 : World F) (r : Ready) (n : Next)
    (h : stTimerSelect w r = .ok (n, w1)) : w1.fsm.elapsed = w.fsm.elapsed := by
  cases r with
  | input ev =>
    simp only [stTimerSelect, stTimer] at h
    split at h <;>
      (simp only [Except.ok.injEq, Prod.mk.injEq] at h; rw [← h.2])
  | done o => exact stEnd_elapsed _ _ _ _ _ h
  | after =>
    simp only [stTimerSelect, stTimer, Except.ok.injEq, Prod.mk.injEq] at h
    rw [← h.2]

theorem settle_elapsed (r : Except Fault (Next × World F)) (w1 : World F)
    (h : settle r = .ok w1) : ∃ n w0, r = .ok (n, w0) ∧ w1.fsm.elapsed = w0.fsm.elapsed := by
  unfold settle at h
  split at h
  · simp at h
  · simp only [Except.ok.injEq] at h
    exact ⟨_, _, rfl, by rw [← h]⟩
  · simp only [Except.ok.injEq] at h
    exact ⟨_, _, rfl, by rw [← h]⟩

/-- The only way `stPause` changes `elapsed`: the pause-on branch with the pause
command started. -/
theorem stPause_elapsed (L : Lib F) (w w1 : World F) (ev : Option Event) (now : Int)
    (o : Bool) (n : Next) (h : stPause L w ev now o = .ok (n, w1)) :
    w1.fsm.elapsed = w.fsm.elapsed ∨
      (o = true ∧ w.fsm.pause = false ∧
        w1.fsm.elapsed = L.add w.fsm.elapsed (L.seconds (Since now w.fsm.StartTime))) := by
  unfold stPause at h
  simp only at h
  split at h
  · rename_i hp
    split at h
    · simp at h
    · simp only [execFresh, invokeCancel] at h
      split at h
      · rename_i ho
        simp only [stTimer, Except.ok.injEq, Prod.mk.injEq] at h
        right
        refine ⟨ho, ?_, by rw [← h.2]⟩
        simpa using hp
      · simp only [Except.ok.injEq, Prod.mk.injEq] at h
        left
        rw [← h.2]
  · split at h
    · simp at h
    · left
      have h1 := stStart_elapsed _ _ _ _ _ h
      exact h1

/-- C11: with `le` the order of float64 on the values at hand (it holds between
`elapsed` and itself, and between `elapsed` and `elapsed` plus the seconds of a
non-negative duration), and with a clock reading that is not before StartTime,
every step of the program leaves `elapsed` greater than or equal to what it
was.  A step either leaves `elapsed` unchanged or is the pause-on branch of
stPause with the pause command started (State = stPause dispatched by main with
the flag false), which adds the seconds of `now - StartTime`, a non-negative
duration.  The step from Idle to AwaitingRelease is among those that leave it
unchanged. -/
theorem elapsed_nondecreasing (L : Lib F) (le : F → F → Prop) (w w1 : World F)
    (i : Input)
    (hrefl : le w.fsm.elapsed w.fsm.elapsed)
    (hadd : ∀ d : Int, 0 ≤ d → le w.fsm.elapsed (L.add w.fsm.elapsed (L.seconds d)))
    (hclock : ∀ ev now o, i = Input.inbox ev now o → w.fsm.StartTime ≤ now)
    (h : step L w i = .ok w1) :
    le w.fsm.elapsed w1.fsm.elapsed ∧
    (w1.fsm.elapsed = w.fsm.elapsed ∨
      ∃ ev now, i = Input.inbox ev now true ∧ ev.EvType = L.EvKeys ∧
        w.inTimer = false ∧ w.fsm.State = Fn.stPause ∧ w.fsm.pause = false ∧
        0 ≤ Since now w.fsm.StartTime ∧
        w1.fsm.elapsed = L.add w.fsm.elapsed (L.seconds (Since now w.fsm.StartTime))) := by
  have key : w1.fsm.elapsed = w.fsm.elapsed ∨
      ∃ ev now, i = Input.inbox ev now true ∧ ev.EvType = L.EvKeys ∧
        w.inTimer = false ∧ w.fsm.State = Fn.stPause ∧ w.fsm.pause = false ∧
        0 ≤ Since now w.fsm.StartTime ∧
        w1.fsm.elapsed = L.add w.fsm.elapsed (L.seconds (Since now w.fsm.StartTime)) := by
    cases i with
    | inbox ev now o =>
      have hnow := hclock ev now o rfl
      simp only [step] at h
      split at h
      · obtain ⟨n, w0, h0, he⟩ := settle_elapsed _ _ h
        left
        rw [he]
        exact stTimerSelect_elapsed _ _ _ _ h0
      · rename_i hmain
        simp only [Bool.not_eq_true] at hmain
        simp only [mainCase] at h
        split at h
        · simp only [Except.ok.injEq] at h
          left
          rw [← h]
        · rename_i hty
          simp only [ne_eq, not_not] at hty
          obtain ⟨n, w0, h0, he⟩ := settle_elapsed _ _ h
          rw [he]
          unfold callState at h0
          split at h0
          · left; exact stInit_elapsed _ _ _ _ h0
          · left; exact stStart_elapsed _ _ _ _ _ h0
          · left; exact stEnd_elapsed _ _ _ _ _ h0
          · left
            simp only [stTimer, Except.ok.injEq, Prod.mk.injEq] at h0
            rw [← h0.2]
          · rename_i hst
            rcases stPause_elapsed L _ _ _ _ _ _ h0 with h1 | ⟨ho, hp, h1⟩
            · left; exact h1
            · right
              subst ho
              exact ⟨ev, now, rfl, hty, hmain, hst, hp, Since_nonneg _ _ hnow, h1⟩
    | done k o =>
      simp only [step] at h
      split at h
      · obtain ⟨n, w0, h0, he⟩ := settle_elapsed _ _ h
        left
        rw [he]
        have h1 := stTimerSelect_elapsed _ _ _ _ h0
        exact h1
      · simp at h
    | tick =>
      simp only [step] at h
      split at h
      · obtain ⟨n, w0, h0, he⟩ := settle_elapsed _ _ h
        left
        rw [he]
        exact stTimerSelect_elapsed _ _ _ _ h0
      · simp at h
    | runReturns k err =>
      simp only [step] at h
      split at h
      · simp only [Except.ok.injEq] at h
        left
        rw [← h]
      · simp at h
  refine ⟨?_, key⟩
  rcases key with h1 | ⟨ev, now, _, _, _, _, _, hd, h1⟩
  · rw [h1]; exact hrefl
  · rw [h1]; exact hadd _ hd

/-- Witness of C11: the pause-on step two seconds after the start, in the
exact arithmetic of `exactLib` with the order of the integers. -/
theorem elapsed_nondecreasing_witness :
    ∃ w w1 : World Int, w.fsm.StartTime = 10 ∧ w.fsm.elapsed = 0 ∧
      step exactLib w (Input.inbox (release 5) 2000000010 true) = .ok w1 ∧
      w1.fsm.elapsed = 2000000000 ∧ w.fsm.elapsed ≤ w1.fsm.elapsed :=
  ⟨{ initWorld exactLib with
      fsm := { NewFsm exactLib with State := Fn.stPause, cancel := some 0,
                                    lastev := some (press 5), StartTime := 10 },
      nextCtx := 1, running := [0] },
   { initWorld exactLib with
      fsm := { NewFsm exactLib with State := Fn.stPause, cancel := some 1, ctx := some 1,
                                    lastev := some (press 5), StartTime := 10,
                                    pause := true, elapsed := 2000000000,
                                    elapsedString := "2" },
      inTimer := true, nextCtx := 2, running := [0],
      trace := [Effect.cancel 0, Effect.exec Command.pauseCommand [] 1] },
   rfl, rfl, by decide, rfl,
   (elapsed_nondecreasing exactLib (fun a b => a ≤ b) _ _
      (Input.inbox (release 5) 2000000010 true)
      (le_refl _)
      (fun d hd => by
        show (0 : Int) ≤ 0 + d
        omega)
      (fun ev now o h => by
        injection h with h1 h2 h3
        subst h2
        decide)
      (by decide)).1⟩

/-- A step from a safe state does not dereference nil and ends in a safe
state. -/
theorem safe_step (L : Lib F) (w : World F) (i : Input) (hs : Safe w) :
    step L w i ≠ .error Fault.nilDeref ∧ ∀ w1, step L w i = .ok w1 → Safe w1 := by
  obtain ⟨hst, h1, h2, h3⟩ := hs
  cases i with
  | inbox ev now o =>
    cases hT : w.inTimer with
    | false =>
      by_cases hty : ev.EvType = L.EvKeys
      · rcases hst with hS | hS | hS
        · by_cases hv : ev.Value = 1
          · cases hc : w.fsm.cancel <;>
              simp [step, mainCase, callState, settle, stInit, invokeCancel, hT, hty, hS,
                hv, hc, Safe]
          · simp [step, mainCase, callState, settle, stInit, hT, hty, hS, hv, Safe]
        · obtain ⟨l, hl⟩ := Option.ne_none_iff_exists'.mp (h1 hT hS)
          by_cases hv : ev.Value = 0
          · by_cases hcode : ev.Code = l.Code
            · simp [step, mainCase, callState, settle, stStart, stTimer, execFresh, hT,
                hty, hS, hv, hl, hcode, Safe]
            · simp [step, mainCase, callState, settle, stStart, hT, hty, hS, hv, hl,
                hcode, Safe]
          · simp [step, mainCase, callState, settle, stStart, hT, hty, hS, hv, hl, Safe]
        · obtain ⟨hl0, hc0⟩ := h2 hT hS
          obtain ⟨l, hl⟩ := Option.ne_none_iff_exists'.mp hl0
          obtain ⟨c, hc⟩ := Option.ne_none_iff_exists'.mp hc0
          cases hp : w.fsm.pause with
          | false =>
            cases o <;>
              simp [step, mainCase, callState, settle, stPause, stTimer, execFresh,
                invokeCancel, hT, hty, hS, hp, hc, Safe]
          | true =>
            by_cases hv : ev.Value = 0
            · by_cases hcode : ev.Code = l.Code
              · simp [step, mainCase, callState, settle, stPause, stStart, stTimer,
                  execFresh, invokeCancel, hT, hty, hS, hp, hc, hv, hl, hcode, Safe]
              · simp [step, mainCase, callState, settle, stPause, stStart, invokeCancel,
                  hT, hty, hS, hp, hc, hv, hl, hcode, Safe]
            · simp [step, mainCase, callState, settle, stPause, stStart, invokeCancel, hT,
                hty, hS, hp, hc, hv, hl, Safe]
      · simp only [step, hT, Bool.false_eq_true, if_false, mainCase, ne_eq, hty,
          not_false_eq_true, if_true]
        refine ⟨by simp, ?_⟩
        intro w1 hw1
        simp only [Except.ok.injEq] at hw1
        subst hw1
        exact ⟨hst, h1, h2, h3⟩
    | true =>
      obtain ⟨c, hc⟩ := Option.ne_none_iff_exists'.mp (h3 hT)
      by_cases hv : ev.Value = 1
      · simp [step, settle, stTimerSelect, hT, hv, hc, Safe]
      · rw [step_wait_quiet L w _ hT (by simp [quiet, hv])]
        refine ⟨by simp, ?_⟩
        intro w1 hw1
        simp only [Except.ok.injEq] at hw1
        subst hw1
        exact ⟨hst, h1, h2, h3⟩
  | done k o =>
    by_cases hk : w.inTimer = true ∧ k ∈ w.sending
    · cases o <;>
        simp [step, settle, stTimerSelect, stEnd, stInit, execFresh, hk.1, hk.2, Safe]
    · simp [step, hk]
  | tick =>
    cases hT : w.inTimer with
    | false => simp [step, hT]
    | true =>
      rw [step_wait_quiet L w Input.tick hT rfl]
      refine ⟨by simp, ?_⟩
      intro w1 hw1
      simp only [Except.ok.injEq] at hw1
      subst hw1
      exact ⟨hst, h1, h2, h3⟩
  | runReturns k err =>
    by_cases hk : k ∈ w.running
    · simp only [step, hk, if_true]
      refine ⟨by simp, ?_⟩
      intro w1 hw1
      simp only [Except.ok.injEq] at hw1
      subst hw1
      exact ⟨hst, h1, h2, h3⟩
    · simp [step, hk]

theorem safe_initWorld (L : Lib F) : Safe (initWorld L) := by
  simp [Safe, initWorld, NewFsm]

/-- C18: whatever inputs a fresh machine is fed, the program never dereferences
nil: no step fails in `stStart` reading `fsm.lastev.Code` or in `stPause`
invoking `fsm.cancel()`.  Every state it reaches is safe: when main is about to
call stStart, lastev is set; when it is about to call stPause, lastev and the
cancel handle are set; in the wait of stTimer the cancel handle is set. -/
theorem no_nil_dereference (L : Lib F) (ins : List Input) :
    run L (initWorld L) ins ≠ .error Fault.nilDeref ∧
    ∀ w, run L (initWorld L) ins = .ok w → Safe w := by
  have gen : ∀ (ins : List Input) (w : World F), Safe w →
      run L w ins ≠ .error Fault.nilDeref ∧ ∀ w1, run L w ins = .ok w1 → Safe w1 := by
    intro ins
    induction ins with
    | nil =>
      intro w hs
      refine ⟨by simp [run], ?_⟩
      intro w1 hw1
      simp only [run, Except.ok.injEq] at hw1
      subst hw1
      exact hs
    | cons i ins ih =>
      intro w hs
      obtain ⟨hne, hok⟩ := safe_step L w i hs
      cases hstep : step L w i with
      | error e =>
        simp only [run, hstep]
        refine ⟨?_, by simp⟩
        intro hcon
        simp only [Except.error.injEq] at hcon
        subst hcon
        exact hne hstep
      | ok w0 =>
        simp only [run, hstep]
        exact ih w0 (hok w0 hstep)
  exact gen ins (initWorld L) (safe_initWorld L)

theorem stInit_ids (w w1 : World F) (ev : Option Event) (n : Next)
    (h : stInit w ev = .ok (n, w1)) : SameIds w w1 := by
  unfold stInit at h
  split at h
  · simp only [Except.ok.injEq, Prod.mk.injEq] at h
    rw [← h.2]
    exact ⟨le_refl _, rfl, rfl, rfl⟩
  · split at h
    · simp only [Except.ok.injEq, Prod.mk.injEq] at h
      rw [← h.2]
      cases w.fsm.cancel <;> exact ⟨le_refl _, rfl, rfl, rfl⟩
    · simp only [Except.ok.injEq, Prod.mk.injEq] at h
      rw [← h.2]
      exact ⟨le_refl _, rfl, rfl, rfl⟩

theorem stStart_ids (w w1 : World F) (ev : Option Event) (now : Int) (n : Next)
    (h : stStart w ev now = .ok (n, w1)) : SameIds w w1 ∨ Launches w w1 := by
  unfold stStart at h
  split at h
  · simp at h
  · split at h
    · split at h
      · simp at h
      · split at h
        · simp only [stTimer, execFresh, Except.ok.injEq, Prod.mk.injEq] at h
          rw [← h.2]
          exact Or.inr ⟨Nat.lt_succ_self _, rfl, rfl, rfl⟩
        · simp only [Except.ok.injEq, Prod.mk.injEq] at h
          rw [← h.2]
          exact Or.inl ⟨le_refl _, rfl, rfl, rfl⟩
    · simp only [Except.ok.injEq, Prod.mk.injEq] at h
      rw [← h.2]
      exact Or.inl ⟨le_refl _, rfl, rfl, rfl⟩

theorem stEnd_ids (w w1 : World F) (ev : Option Event) (o : Bool) (n : Next)
    (h : stEnd w ev o = .ok (n, w1)) : SameIds w w1 := by
  unfold stEnd at h
  simp only [execFresh] at h
  split at h
  · obtain ⟨h1, h2, h3, h4⟩ := stInit_ids _ _ _ _ h
    exact ⟨le_trans (Nat.le_succ _) h1, h2, h3, h4⟩
  · simp only [Except.ok.injEq, Prod.mk.injEq] at h
    rw [← h.2]
    exact ⟨Nat.le_succ _, rfl, rfl, rfl⟩

theorem stTimerSelect_ids (w w1 : World F) (r : Ready) (n : Next)
    (h : stTimerSelect w r = .ok (n, w1)) : SameIds w w1 := by
  cases r with
  | input ev =>
    simp only [stTimerSelect, stTimer] at h
    split at h <;>
      (simp only [Except.ok.injEq, Prod.mk.injEq] at h; rw [← h.2];
       exact ⟨le_refl _, rfl, rfl, rfl⟩)
  | done o => exact stEnd_ids _ _ _ _ _ h
  | after =>
    simp only [stTimerSelect, stTimer, Except.ok.injEq, Prod.mk.injEq] at h
    rw [← h.2]
    exact ⟨le_refl _, rfl, rfl, rfl⟩

theorem stPause_ids (L : Lib F) (w w1 : World F) (ev : Option Event) (now : Int)
    (o : Bool) (n : Next) (h : stPause L w ev now o = .ok (n, w1)) :
    SameIds w w1 ∨ Launches w w1 := by
  unfold stPause at h
  simp only at h
  split at h
  · split at h
    · simp at h
    · simp only [execFresh, invokeCancel] at h
      split at h
      · simp only [stTimer, Except.ok.injEq, Prod.mk.injEq] at h
        rw [← h.2]
        exact Or.inl ⟨Nat.le_succ _, rfl, rfl, rfl⟩
      · simp only [Except.ok.injEq, Prod.mk.injEq] at h
        rw [← h.2]
        exact Or.inl ⟨Nat.le_succ _, rfl, rfl, rfl⟩
  · split at h
    · simp at h
    · have h1 := stStart_ids _ _ _ _ _ h
      exact h1

theorem callState_ids (L : Lib F) (w w1 : World F) (ev : Option Event) (now : Int)
    (o : Bool) (n : Next) (h : callState L w ev now o = .ok (n, w1)) :
    SameIds w w1 ∨ Launches w w1 := by
  unfold callState at h
  split at h
  · exact Or.inl (stInit_ids _ _ _ _ h)
  · exact stStart_ids _ _ _ _ _ h
  · exact Or.inl (stEnd_ids _ _ _ _ _ h)
  · simp only [stTimer, Except.ok.injEq, Prod.mk.injEq] at h
    rw [← h.2]
    exact Or.inl ⟨le_refl _, rfl, rfl, rfl⟩
  · exact stPause_ids L _ _ _ _ _ _ h

theorem settle_ids (r : Except Fault (Next × World F)) (w1 : World F)
    (h : settle r = .ok w1) :
    ∃ n w0, r = .ok (n, w0) ∧ w1.nextCtx = w0.nextCtx ∧ w1.running = w0.running ∧
      w1.sending = w0.sending ∧ w1.received = w0.received := by
  unfold settle at h
  split at h
  · simp at h
  · simp only [Except.ok.injEq] at h
    exact ⟨_, _, rfl, by rw [← h], by rw [← h], by rw [← h], by rw [← h]⟩
  · simp only [Except.ok.injEq] at h
    exact ⟨_, _, rfl, by rw [← h], by rw [← h], by rw [← h], by rw [← h]⟩

/-- What a step does to the goroutines. -/
theorem step_ids (L : Lib F) (w w1 : World F) (i : Input) (h : step L w i = .ok w1) :
    IdStep w w1 := by
  cases i with
  | inbox ev now o =>
    simp only [step] at h
    split at h
    · obtain ⟨n, w0, h0, e1, e2, e3, e4⟩ := settle_ids _ _ h
      obtain ⟨g1, g2, g3, g4⟩ := stTimerSelect_ids _ _ _ _ h0
      exact Or.inl ⟨by omega, by rw [e2, g2], by rw [e3, g3], by rw [e4, g4]⟩
    · simp only [mainCase] at h
      split at h
      · simp only [Except.ok.injEq] at h
        rw [← h]
        exact Or.inl ⟨le_refl _, rfl, rfl, rfl⟩
      · obtain ⟨n, w0, h0, e1, e2, e3, e4⟩ := settle_ids _ _ h
        rcases callState_ids L _ _ _ _ _ _ h0 with ⟨g1, g2, g3, g4⟩ | ⟨g1, g2, g3, g4⟩
        · exact Or.inl ⟨by omega, by rw [e2, g2], by rw [e3, g3], by rw [e4, g4]⟩
        · exact Or.inr (Or.inl ⟨by omega, by rw [e2, g2], by rw [e3, g3], by rw [e4, g4]⟩)
  | done k o =>
    simp only [step] at h
    split at h
    · rename_i hk
      obtain ⟨n, w0, h0, e1, e2, e3, e4⟩ := settle_ids _ _ h
      have g := stTimerSelect_ids _ _ _ _ h0
      obtain ⟨g1, g2, g3, g4⟩ := g
      exact Or.inr (Or.inr (Or.inr ⟨k, hk.2, by rw [e1]; exact g1, by rw [e2, g2],
        by rw [e3, g3], by rw [e4, g4]⟩))
    · simp at h
  | tick =>
    simp only [step] at h
    split at h
    · obtain ⟨n, w0, h0, e1, e2, e3, e4⟩ := settle_ids _ _ h
      obtain ⟨g1, g2, g3, g4⟩ := stTimerSelect_ids _ _ _ _ h0
      exact Or.inl ⟨by omega, by rw [e2, g2], by rw [e3, g3], by rw [e4, g4]⟩
    · simp at h
  | runReturns k err =>
    simp only [step] at h
    split at h
    · rename_i hk
      simp only [Except.ok.injEq] at h
      rw [← h]
      refine Or.inr (Or.inr (Or.inl ⟨k, hk, rfl, rfl, ?_, rfl⟩))
      cases err
      · exact Or.inr rfl
      · exact Or.inl rfl
    · simp at h

/-- A step keeps every goroutine in one list only. -/
theorem IdsOk_step (w w1 : World F) (hw : IdsOk w) (h : IdStep w w1) : IdsOk w1 := by
  intro j
  obtain ⟨hj1, hj2⟩ := hw j
  rcases h with ⟨g1, g2, g3, g4⟩ | ⟨g1, g2, g3, g4⟩ | ⟨k, hk, g1, g2, g3, g4⟩ |
      ⟨k, hk, g1, g2, g3, g4⟩
  · rw [g2, g3, g4]
    exact ⟨hj1, fun hp => lt_of_lt_of_le (hj2 hp) g1⟩
  · rw [g2, g3, g4, List.count_append, List.count_singleton']
    by_cases hjn : w.nextCtx = j
    · subst hjn
      simp only [if_true]
      have hz : ¬ 0 < List.count w.nextCtx w.running + List.count w.nextCtx w.sending +
          List.count w.nextCtx w.received := fun hp => lt_irrefl _ (hj2 hp)
      exact ⟨by omega, fun _ => g1⟩
    · simp only [hjn, if_false]
      exact ⟨by omega, fun hp => lt_trans (hj2 (by omega)) g1⟩
  · have hk1 : 1 ≤ List.count k w.running := List.one_le_count_iff.mpr hk
    rw [g1, g2, g4, List.count_erase]
    rcases g3 with g3 | g3
    · rw [g3]
      by_cases hkj : k = j
      · subst hkj
        simp only [beq_self_eq_true, if_true]
        exact ⟨by omega, fun hp => hj2 (by omega)⟩
      · have : (k == j) = false := by simp [hkj]
        simp only [this, Bool.false_eq_true, if_false]
        exact ⟨by omega, fun hp => hj2 (by omega)⟩
    · rw [g3, List.count_append, List.count_singleton']
      by_cases hkj : k = j
      · subst hkj
        simp only [beq_self_eq_true, if_true]
        exact ⟨by omega, fun hp => hj2 (by omega)⟩
      · have : (k == j) = false := by simp [hkj]
        simp only [this, Bool.false_eq_true, if_false, hkj]
        exact ⟨by omega, fun hp => hj2 (by omega)⟩
  · have hk1 : 1 ≤ List.count k w.sending := List.one_le_count_iff.mpr hk
    rw [g2, g3, g4, List.count_erase, List.count_append, List.count_singleton']
    by_cases hkj : k = j
    · subst hkj
      simp only [beq_self_eq_true, if_true]
      exact ⟨by omega, fun hp => lt_of_lt_of_le (hj2 (by omega)) g1⟩
    · have : (k == j) = false := by simp [hkj]
      simp only [this, Bool.false_eq_true, if_false, hkj]
      exact ⟨by omega, fun hp => lt_of_lt_of_le (hj2 (by omega)) g1⟩

theorem IdsOk_run (L : Lib F) (ins : List Input) (w w1 : World F) (hw : IdsOk w)
    (h : run L w ins = .ok w1) : IdsOk w1 := by
  induction ins generalizing w with
  | nil =>
    simp only [run, Except.ok.injEq] at h
    subst h
    exact hw
  | cons i ins ih =>
    simp only [run] at h
    cases hstep : step L w i with
    | error e => simp [hstep] at h
    | ok w0 =>
      simp only [hstep] at h
      exact ih w0 (IdsOk_step w w0 hw (step_ids L w w0 i hstep)) h

theorem IdsOk_initWorld (L : Lib F) : IdsOk (initWorld L) := by
  intro k
  simp [initWorld]

/-- Once the goroutine of context `k` has left `running`, the number of its
completion signals, pending or received, never changes. -/
theorem sent_step (w w1 : World F) (k c : Nat) (h : IdStep w w1)
    (hr : w.running.count k = 0) (hlt : k < w.nextCtx)
    (hc : w.sending.count k + w.received.count k = c) :
    w1.running.count k = 0 ∧ k < w1.nextCtx ∧
      w1.sending.count k + w1.received.count k = c := by
  rcases h with ⟨g1, g2, g3, g4⟩ | ⟨g1, g2, g3, g4⟩ | ⟨j, hj, g1, g2, g3, g4⟩ |
      ⟨j, hj, g1, g2, g3, g4⟩
  · rw [g2, g3, g4]
    exact ⟨hr, lt_of_lt_of_le hlt g1, hc⟩
  · have hne : ¬ w.nextCtx = k := by omega
    rw [g2, g3, g4, List.count_append, List.count_singleton']
    simp only [hne, if_false]
    exact ⟨by omega, lt_trans hlt g1, hc⟩
  · have hjk : ¬ j = k := by
      intro e
      subst e
      have := List.one_le_count_iff.mpr hj
      omega
    have hb : (j == k) = false := by simp [hjk]
    rw [g1, g2, g4, List.count_erase]
    simp only [hb, Bool.false_eq_true, if_false]
    rcases g3 with g3 | g3
    · rw [g3]
      exact ⟨by omega, hlt, hc⟩
    · rw [g3, List.count_append, List.count_singleton']
      simp only [hjk, if_false]
      exact ⟨by omega, hlt, by omega⟩
  · have hj1 : 1 ≤ List.count j w.sending := List.one_le_count_iff.mpr hj
    rw [g2, g3, g4, List.count_erase, List.count_append, List.count_singleton']
    by_cases hjk : j = k
    · subst hjk
      simp only [beq_self_eq_true, if_true]
      exact ⟨hr, lt_of_lt_of_le hlt g1, by omega⟩
    · have hb : (j == k) = false := by simp [hjk]
      simp only [hb, Bool.false_eq_true, if_false, hjk]
      exact ⟨hr, lt_of_lt_of_le hlt g1, by omega⟩

theorem sent_run (L : Lib F) (ins : List Input) (w w1 : World F) (k c : Nat)
    (h : run L w ins = .ok w1)
    (hr : w.running.count k = 0) (hlt : k < w.nextCtx)
    (hc : w.sending.count k + w.received.count k = c) :
    w1.running.count k = 0 ∧ k < w1.nextCtx ∧
      w1.sending.count k + w1.received.count k = c := by
  induction ins generalizing w with
  | nil =>
    simp only [run, Except.ok.injEq] at h
    subst h
    exact ⟨hr, hlt, hc⟩
  | cons i ins ih =>
    simp only [run] at h
    cases hstep : step L w i with
    | error e => simp [hstep] at h
    | ok w0 =>
      simp only [hstep] at h
      obtain ⟨a, b, d⟩ := sent_step w w0 k c (step_ids L w w0 i hstep) hr hlt hc
      exact ih w0 h a b d

/-- The goroutine of lines 70-76 by itself: in a state reached by a fresh
machine, let the goroutine of a begin launch (context `k`) be waiting for
`cmd.Run()`.  If the run returns without
error the goroutine sends its completion on `fsm.done`: the Fsm is untouched,
`k` joins the pending senders, and in every later state the signals of `k`,
pending or received, number exactly one.  If the run returns an error nothing
is sent: the Fsm, the trace and the pending senders are untouched, in every
later state the signals of `k` number zero, and when the machine is in the wait
of stTimer every sequence of timeouts and of events that are not presses leaves
the whole program state as it was. -/
theorem completion_sent_once_iff_clean_exit (L : Lib F) (ins : List Input)
    (w : World F) (k : Nat)
    (hreach : run L (initWorld L) ins = .ok w) (hk : k ∈ w.running) :
    (∃ w1, step L w (Input.runReturns k false) = .ok w1 ∧
      w1.fsm = w.fsm ∧ w1.inTimer = w.inTimer ∧ w1.trace = w.trace ∧
      w1.sending = w.sending ++ [k] ∧
      ∀ ins2 w3, run L w1 ins2 = .ok w3 →
        k ∉ w3.running ∧ w3.sending.count k + w3.received.count k = 1) ∧
    (∃ w2, step L w (Input.runReturns k true) = .ok w2 ∧
      w2.fsm = w.fsm ∧ w2.inTimer = w.inTimer ∧ w2.trace = w.trace ∧
      w2.sending = w.sending ∧
      (∀ ins2 w3, run L w2 ins2 = .ok w3 →
        k ∉ w3.running ∧ w3.sending.count k + w3.received.count k = 0) ∧
      (w.inTimer = true → ∀ ins2, (∀ i ∈ ins2, quiet i = true) →
        run L w2 ins2 = .ok w2)) := by
  have hJ := IdsOk_run L ins _ w (IdsOk_initWorld L) hreach k
  have hk1 : 1 ≤ List.count k w.running := List.one_le_count_iff.mpr hk
  obtain ⟨hle, hlt⟩ := hJ
  have hlt' : k < w.nextCtx := hlt (by omega)
  constructor
  · refine ⟨{ w with running := w.running.erase k, sending := w.sending ++ [k] },
      by simp [step, hk], rfl, rfl, rfl, rfl, ?_⟩
    intro ins2 w3 h3
    obtain ⟨a, _, d⟩ := sent_run L ins2 _ w3 k 1 h3
      (by simp only [List.count_erase_self]; omega) hlt'
      (by simp only [List.count_append, List.count_singleton', if_true]; omega)
    exact ⟨List.count_eq_zero.mp a, d⟩
  · refine ⟨{ w with running := w.running.erase k },
      by simp [step, hk], rfl, rfl, rfl, rfl, ?_, ?_⟩
    · intro ins2 w3 h3
      obtain ⟨a, _, d⟩ := sent_run L ins2 _ w3 k 0 h3
        (by simp only [List.count_erase_self]; omega) hlt' (by simp only; omega)
      exact ⟨List.count_eq_zero.mp a, d⟩
    · intro hT ins2 hq
      exact run_wait_quiet L _ ins2 hT hq

/-- An instance of the above: the begin command of context 0, launched by a
press and release of key 30 on a fresh machine. -/
theorem completion_sent_once_iff_clean_exit_witness :
    ∃ w2, step exactLib
        { fsm := { NewFsm exactLib with lastev := some (press 30), State := Fn.stStart,
                                        elapsedString := "0", ctx := some 0,
                                        cancel := some 0, StartTime := 10 },
          inTimer := true, nextCtx := 1,
          trace := [Effect.exec Command.beginCommand ["0"] 0],
          running := [0], sending := [], received := [] }
        (Input.runReturns 0 true) = .ok w2 ∧ w2.sending = [] ∧
      run exactLib w2 [Input.tick, Input.inbox (release 5) 20 true, Input.tick] = .ok w2 := by
  obtain ⟨w2, h, _, _, _, hs, _, hq⟩ :=
    (completion_sent_once_iff_clean_exit exactLib
      [Input.inbox (press 30) 0 true, Input.inbox (release 30) 10 true]
      { fsm := { NewFsm exactLib with lastev := some (press 30), State := Fn.stStart,
                                      elapsedString := "0", ctx := some 0,
                                      cancel := some 0, StartTime := 10 },
        inTimer := true, nextCtx := 1,
        trace := [Effect.exec Command.beginCommand ["0"] 0],
        running := [0], sending := [], received := [] }
      0 (by decide) (by decide)).2
  exact ⟨w2, h, hs, hq rfl _ (by decide)⟩

/-- One step from a safe state: the elapsed text moves as the cycle text does,
the trace only grows, and every begin or end launched by the step carries the
elapsed text as its single argument, every pause none. -/
theorem cycle_step (L : Lib F) (w : World F) (i : Input) (hs : Safe w) :
    ∀ w1, step L w i = .ok w1 →
      w1.fsm.elapsedString = nextText L w w.fsm.elapsedString i ∧
      w1.trace = w.trace ++ newEffects w w1 ∧
      ∀ c args, (c, args) ∈ launched (newEffects w w1) →
        (c = Command.pauseCommand ∧ args = []) ∨
        (c ≠ Command.pauseCommand ∧ args = [w.fsm.elapsedString]) := by
  obtain ⟨hst, h1, h2, h3⟩ := hs
  have same : ∀ w1 : World F, w = w1 → nextText L w w.fsm.elapsedString i = w.fsm.elapsedString →
      w1.fsm.elapsedString = nextText L w w.fsm.elapsedString i ∧
      w1.trace = w.trace ++ newEffects w w1 ∧
      ∀ c args, (c, args) ∈ launched (newEffects w w1) →
        (c = Command.pauseCommand ∧ args = []) ∨
        (c ≠ Command.pauseCommand ∧ args = [w.fsm.elapsedString]) := by
    intro w1 hw1 ht
    subst hw1
    refine ⟨ht.symm, by simp [newEffects], ?_⟩
    simp [newEffects, launched]
  cases i with
  | inbox ev now o =>
    cases hT : w.inTimer with
    | false =>
      by_cases hty : ev.EvType = L.EvKeys
      · rcases hst with hS | hS | hS
        · by_cases hv : ev.Value = 1
          · cases hc : w.fsm.cancel <;>
              simp [step, mainCase, callState, settle, stInit, invokeCancel, hT, hty, hS,
                hv, hc, nextText, opensCycle, pauseOn, newEffects, launched]
          · simp [step, mainCase, callState, settle, stInit, hT, hty, hS, hv, nextText,
              opensCycle, pauseOn, newEffects, launched]
        · obtain ⟨l, hl⟩ := Option.ne_none_iff_exists'.mp (h1 hT hS)
          by_cases hv : ev.Value = 0
          · by_cases hcode : ev.Code = l.Code
            · simp [step, mainCase, callState, settle, stStart, stTimer, execFresh, hT,
                hty, hS, hv, hl, hcode, nextText, opensCycle, pauseOn, newEffects, launched]
            · simp [step, mainCase, callState, settle, stStart, hT, hty, hS, hv, hl,
                hcode, nextText, opensCycle, pauseOn, newEffects, launched]
          · simp [step, mainCase, callState, settle, stStart, hT, hty, hS, hv, hl,
              nextText, opensCycle, pauseOn, newEffects, launched]
        · obtain ⟨hl0, hc0⟩ := h2 hT hS
          obtain ⟨l, hl⟩ := Option.ne_none_iff_exists'.mp hl0
          obtain ⟨c, hc⟩ := Option.ne_none_iff_exists'.mp hc0
          cases hp : w.fsm.pause with
          | false =>
            cases o <;>
              simp [step, mainCase, callState, settle, stPause, stTimer, execFresh,
                invokeCancel, hT, hty, hS, hp, hc, nextText, opensCycle, pauseOn,
                newEffects, launched]
          | true =>
            by_cases hv : ev.Value = 0
            · by_cases hcode : ev.Code = l.Code
              · simp [step, mainCase, callState, settle, stPause, stStart, stTimer,
                  execFresh, invokeCancel, hT, hty, hS, hp, hc, hv, hl, hcode, nextText,
                  opensCycle, pauseOn, newEffects, launched]
              · simp [step, mainCase, callState, settle, stPause, stStart, invokeCancel,
                  hT, hty, hS, hp, hc, hv, hl, hcode, nextText, opensCycle, pauseOn,
                  newEffects, launched]
            · simp [step, mainCase, callState, settle, stPause, stStart, invokeCancel, hT,
                hty, hS, hp, hc, hv, hl, nextText, opensCycle, pauseOn, newEffects,
                launched]
      · intro w1 hw1
        rw [main_drops_non_key_event L w ev now o hT hty] at hw1
        simp only [Except.ok.injEq] at hw1
        exact same w1 hw1 (by simp [nextText, opensCycle, pauseOn, hty])
    | true =>
      by_cases hv : ev.Value = 1
      · simp [step, settle, stTimerSelect, hT, hv, nextText, opensCycle, pauseOn,
          newEffects, launched]
      · intro w1 hw1
        rw [step_wait_quiet L w _ hT (by simp [quiet, hv])] at hw1
        simp only [Except.ok.injEq] at hw1
        exact same w1 hw1 (by simp [nextText, opensCycle, pauseOn, hT])
  | done k o =>
    by_cases hk : w.inTimer = true ∧ k ∈ w.sending
    · cases o <;>
        simp [step, settle, stTimerSelect, stEnd, stInit, execFresh, hk.1, hk.2, nextText,
          opensCycle, pauseOn, newEffects, launched]
    · simp [step, hk]
  | tick =>
    cases hT : w.inTimer with
    | false => simp [step, hT]
    | true =>
      intro w1 hw1
      rw [step_wait_quiet L w Input.tick hT rfl] at hw1
      simp only [Except.ok.injEq] at hw1
      exact same w1 hw1 (by simp [nextText, opensCycle, pauseOn])
  | runReturns k err =>
    by_cases hk : k ∈ w.running
    · simp [step, hk, nextText, opensCycle, pauseOn, newEffects, launched]
    · simp [step, hk]

/-- Along a run from a safe state the elapsed text is the cycle text. -/
theorem cycle_run (L : Lib F) (ins : List Input) (w w1 : World F) (hs : Safe w)
    (h : run L w ins = .ok w1) :
    Safe w1 ∧ w1.fsm.elapsedString = segmentText L w w.fsm.elapsedString ins := by
  induction ins generalizing w with
  | nil =>
    simp only [run, Except.ok.injEq] at h
    subst h
    exact ⟨hs, rfl⟩
  | cons i ins ih =>
    simp only [run] at h
    cases hstep : step L w i with
    | error e => simp [hstep] at h
    | ok w0 =>
      simp only [hstep] at h
      obtain ⟨hs0, ht0⟩ := ih w0 ((safe_step L w i hs).2 w0 hstep) h
      refine ⟨hs0, ?_⟩
      simp only [segmentText, hstep]
      rw [ht0, (cycle_step L w i hs w0 hstep).1]

/-- C17: in every state reached by a fresh machine the elapsed text is the
cycle text of the inputs fed so far: "0" if no pause-on came after the press
that opened the cycle, otherwise the formatted seconds of the single segment
ended by the most recent pause-on (`now - StartTime` at that pause), neither a
sum over segments nor anything of the segment still running.  A completion
signal received in that state launches the end command with exactly that text
as its single argument, and every begin or end command that any step launches
from that state, the begin of a resume included, carries that same text. -/
theorem end_and_begin_carry_segment_text (L : Lib F) (ins : List Input) (w : World F)
    (hreach : run L (initWorld L) ins = .ok w) :
    w.fsm.elapsedString = segmentText L (initWorld L) "" ins ∧
    (∀ k o w1, step L w (Input.done k o) = .ok w1 →
      newEffects w w1 =
        [Effect.exec Command.endCommand [segmentText L (initWorld L) "" ins] w.nextCtx]) ∧
    (∀ i w1, step L w i = .ok w1 →
      w1.trace = w.trace ++ newEffects w w1 ∧
      ∀ c args, (c, args) ∈ launched (newEffects w w1) → c ≠ Command.pauseCommand →
        args = [segmentText L (initWorld L) "" ins]) := by
  obtain ⟨hs, ht⟩ := cycle_run L ins (initWorld L) w (safe_initWorld L) hreach
  have ht0 : w.fsm.elapsedString = segmentText L (initWorld L) "" ins := ht
  refine ⟨ht0, ?_, ?_⟩
  · intro k o w1 h1
    rw [← ht0]
    by_cases hk : w.inTimer = true ∧ k ∈ w.sending
    · cases o <;>
        simp [step, settle, stTimerSelect, stEnd, stInit, execFresh, hk.1, hk.2] at h1 <;>
        (subst h1; simp [newEffects])
    · simp [step, hk] at h1
  · intro i w1 h1
    obtain ⟨_, h2, h3⟩ := cycle_step L w i hs w1 h1
    refine ⟨h2, ?_⟩
    intro c args hmem hc
    rcases h3 c args hmem with ⟨hp, _⟩ | ⟨_, ha⟩
    · exact absurd hp hc
    · rw [ha, ht0]

/-- Witness of C17: a cycle opened with key 30 and paused with key 5 two
seconds after the start; the elapsed text is then the cycle text of these
inputs. -/
theorem end_and_begin_carry_segment_text_witness :
    ("2" : String) =
      segmentText exactLib (initWorld exactLib) ""
        [Input.inbox (press 30) 0 true, Input.inbox (release 30) 10 true,
          Input.inbox (press 5) 100 true, Input.inbox (release 5) 2000000010 true] :=
  (end_and_begin_carry_segment_text exactLib
    [Input.inbox (press 30) 0 true, Input.inbox (release 30) 10 true,
      Input.inbox (press 5) 100 true, Input.inbox (release 5) 2000000010 true]
    { fsm := { ctx := some 1, lastev := some (press 5), pause := true,
               State := Fn.stPause, elapsedString := "2", elapsed := 2000000000,
               cancel := some 1, StartTime := 10 },
      inTimer := true, nextCtx := 2,
      trace := [Effect.exec Command.beginCommand ["0"] 0, Effect.cancel 0,
                Effect.exec Command.pauseCommand [] 1],
      running := [0], sending := [], received := [] }
    (by decide)).1

/-- Witness of C18: the state a fresh machine reaches by a press and release of
key 30 is safe. -/
theorem no_nil_dereference_witness :
    Safe
      ({ fsm := { ctx := some 0, lastev := some (press 30), pause := false,
                  State := Fn.stStart, elapsedString := "0", elapsed := 0,
                  cancel := some 0, StartTime := 10 },
         inTimer := true, nextCtx := 1,
         trace := [Effect.exec Command.beginCommand ["0"] 0],
         running := [0], sending := [], received := [] } : World Int) :=
  (no_nil_dereference exactLib
    [Input.inbox (press 30) 0 true, Input.inbox (release 30) 10 true]).2 _ (by decide)

/-- C16, the code at the failing input.  Key 30 opens a cycle on a fresh
machine, key 5 is pressed and released, and the pause command cannot start:
stPause has already flipped the flag when it returns stInit, so the machine is
Idle with the pause flag true.  After the cancelled begin command has returned,
key 30 opens a second cycle and key 5 is pressed and released: the first
stPause of that cycle flips the flag to false and takes the unpause branch, so
no pause command is launched; the handle of the running begin command (context
2) is invoked and a new begin command (context 3) is launched at once. -/
theorem idle_with_pause_flag_set :
    run exactLib (initWorld exactLib)
      [Input.inbox (press 30) 0 true, Input.inbox (release 30) 10 true,
        Input.inbox (press 5) 100 true, Input.inbox (release 5) 2000000010 false] =
    Except.ok
      { fsm := { ctx := some 0, lastev := some (press 5), pause := true,
                 State := Fn.stInit, elapsedString := "0", elapsed := 0,
                 cancel := some 0, StartTime := 10 },
        inTimer := false, nextCtx := 2,
        trace := [Effect.exec Command.beginCommand ["0"] 0,
                  Effect.cancel 0,
                  Effect.exec Command.pauseCommand [] 1],
        running := [0], sending := [], received := [] } ∧
    run exactLib (initWorld exactLib)
      [Input.inbox (press 30) 0 true, Input.inbox (release 30) 10 true,
        Input.inbox (press 5) 100 true, Input.inbox (release 5) 2000000010 false,
        Input.runReturns 0 true,
        Input.inbox (press 30) 3000000000 true, Input.inbox (release 30) 3000000010 true,
        Input.inbox (press 5) 4000000000 true,
        Input.inbox (release 5) 4000000010 true] =
    Except.ok
      { fsm := { ctx := some 3, lastev := some (press 5), pause := false,
                 State := Fn.stPause, elapsedString := "0", elapsed := 0,
                 cancel := some 3, StartTime := 4000000010 },
        inTimer := true, nextCtx := 4,
        trace := [Effect.exec Command.beginCommand ["0"] 0,
                  Effect.cancel 0,
                  Effect.exec Command.pauseCommand [] 1,
                  Effect.cancel 0,
                  Effect.exec Command.beginCommand ["0"] 2,
                  Effect.cancel 2,
                  Effect.exec Command.beginCommand ["0"] 3],
        running := [2, 3], sending := [], received := [] } := by
  constructor <;> decide

/-- C15, the code at the failing input.  Key 30 opens a cycle (begin of context
0); key 5 is pressed; the begin command returns cleanly while the goroutine is
in the select of main, so its send on `fsm.done` stays pending; the release of
key 5 runs pause-on; a second press and release of key 5 resume with a new
begin (context 2), whose `cmd.Run()` then returns an error.  The failed run
sends nothing and the machine is in the wait of stTimer (first run).  With no
press arriving, the wait then receives the pending signal of context 0 and
runs stEnd: the end command is launched and the machine is Idle (second
run). -/
theorem run_failure_then_stale_completion_ends_wait :
    run exactLib (initWorld exactLib)
      [Input.inbox (press 30) 0 true, Input.inbox (release 30) 10 true,
        Input.inbox (press 5) 100 true, Input.runReturns 0 false,
        Input.inbox (release 5) 2000000010 true,
        Input.inbox (press 5) 2000000020 true,
        Input.inbox (release 5) 3000000000 true,
        Input.runReturns 2 true] =
    Except.ok
      { fsm := { ctx := some 2, lastev := some (press 5), pause := false,
                 State := Fn.stPause, elapsedString := "2", elapsed := 2000000000,
                 cancel := some 2, StartTime := 3000000000 },
        inTimer := true, nextCtx := 3,
        trace := [Effect.exec Command.beginCommand ["0"] 0,
                  Effect.cancel 0,
                  Effect.exec Command.pauseCommand [] 1,
                  Effect.cancel 1,
                  Effect.exec Command.beginCommand ["2"] 2],
        running := [], sending := [0], received := [] } ∧
    run exactLib (initWorld exactLib)
      [Input.inbox (press 30) 0 true, Input.inbox (release 30) 10 true,
        Input.inbox (press 5) 100 true, Input.runReturns 0 false,
        Input.inbox (release 5) 2000000010 true,
        Input.inbox (press 5) 2000000020 true,
        Input.inbox (release 5) 3000000000 true,
        Input.runReturns 2 true,
        Input.done 0 true] =
    Except.ok
      { fsm := { ctx := some 2, lastev := some (press 5), pause := false,
                 State := Fn.stInit, elapsedString := "2", elapsed := 2000000000,
                 cancel := some 3, StartTime := 3000000000 },
        inTimer := false, nextCtx := 4,
        trace := [Effect.exec Command.beginCommand ["0"] 0,
                  Effect.cancel 0,
                  Effect.exec Command.pauseCommand [] 1,
                  Effect.cancel 1,
                  Effect.exec Command.beginCommand ["2"] 2,
                  Effect.exec Command.endCommand ["2"] 3],
        running := [], sending := [], received := [0] } := by
  constructor <;> decide

end Pomlight
